import Mathlib

/-!
Verification of the cloudtrail-logs event pipeline.

This file gives a shallow embedding of the Go sources of the
dhairya13703/cloudtrail-logs repository:

  * `internal/timeutil/timeutil.go` — time-range parsing and validation
    (`RelativeTimeRange`, `CustomTimeRange`, `ValidateAndParseTimeRange`);
  * `internal/monitor/monitor.go` — the filter predicate `matchesFilter`
    and the scan loop `MonitorKMSEvents`;
  * `internal/writer/writer.go` — the log writer (`WriteEvent`,
    `GetCurrentFile`).

Instants are modelled as `Int` seconds (all quantities in the source are
whole seconds, so nothing is lost against Go's nanosecond durations).
Go's `time.Parse` against the three fixed layouts is embedded as an
explicit character-level parser; Go's `map[string]interface{}` JSON
documents are embedded as an inductive `Json` type with association
lists for objects.
-/

namespace CloudtrailLogs

/-! ## Time utilities (internal/timeutil/timeutil.go) -/

/-- A civil date-time as parsed from one of the three accepted layouts
`YYYY-MM-DD HH:mm:ss`, `YYYY-MM-DD HH:mm`, `YYYY-MM-DD` (UTC, as Go's
`time.Parse` with layouts carrying no zone). -/
structure DateTime where
  year : Nat
  month : Nat
  day : Nat
  hour : Nat
  minute : Nat
  second : Nat
deriving Repr, DecidableEq

/-- Gregorian leap-year test (as Go's `time` package uses). -/
def isLeap (y : Nat) : Bool :=
  (y % 4 == 0 && y % 100 != 0) || (y % 400 == 0)

/-- Number of days in a month, matching Go's per-month validation in
`time.Parse`. -/
def daysInMonth (y m : Nat) : Nat :=
  if m = 2 then (if isLeap y then 29 else 28)
  else if m = 4 ∨ m = 6 ∨ m = 9 ∨ m = 11 then 30
  else 31

/-- Days since 1970-01-01 of a civil date (Hinnant's algorithm, the
standard conversion also used by Go's `time.Date` internals). -/
def daysFromCivil (y m d : Int) : Int :=
  let yy : Int := if m ≤ 2 then y - 1 else y
  let era : Int := (if 0 ≤ yy then yy else yy - 399) / 400
  let yoe : Int := yy - era * 400
  let mp : Int := (m + 9) % 12
  let doy : Int := (153 * mp + 2) / 5 + d - 1
  let doe : Int := yoe * 365 + yoe / 4 - yoe / 100 + doy
  era * 146097 + doe - 719468

/-- The instant (seconds since epoch) denoted by a parsed `DateTime`. -/
def dtToSec (dt : DateTime) : Int :=
  daysFromCivil dt.year dt.month dt.day * 86400
    + dt.hour * 3600 + dt.minute * 60 + dt.second

/-- Numeric value of a decimal digit character. -/
def digitVal (c : Char) : Nat := c.toNat - 48

/-- Decimal value of a digit string (the behaviour of `strconv.Atoi`
on an all-digit input; on inputs whose value overflows `int`, Go
returns the clamped maximum, which like the true value fails the
subsequent range checks, so outcomes agree). -/
def natOfDigits (ds : List Char) : Nat :=
  ds.foldl (fun a c => a * 10 + digitVal c) 0

/-- Digit read of character `i` of `cs`: `some` its value when it is
a decimal digit. -/
def digAt (cs : List Char) (i : Nat) : Option Nat :=
  match cs.get? i with
  | some c => if c.isDigit then some (digitVal c) else none
  | none => none

/-- Character test at a position. -/
def charAt (cs : List Char) (i : Nat) (c : Char) : Bool :=
  cs.get? i == some c

/-- Go `time.Parse` against layout `"2006-01-02 15:04:05"`:
exactly 19 characters, zero-padded fields, with Go's component range
validation. -/
def parseFull (s : String) : Option DateTime :=
  let cs := s.data
  if cs.length = 19 ∧ charAt cs 4 '-' ∧ charAt cs 7 '-' ∧ charAt cs 10 ' '
      ∧ charAt cs 13 ':' ∧ charAt cs 16 ':' then
    match digAt cs 0, digAt cs 1, digAt cs 2, digAt cs 3,
          digAt cs 5, digAt cs 6, digAt cs 8, digAt cs 9,
          digAt cs 11, digAt cs 12, digAt cs 14, digAt cs 15,
          digAt cs 17, digAt cs 18 with
    | some y1, some y2, some y3, some y4, some o1, some o2, some d1, some d2,
      some h1, some h2, some i1, some i2, some s1, some s2 =>
      let y := ((y1 * 10 + y2) * 10 + y3) * 10 + y4
      let mo := o1 * 10 + o2
      let dy := d1 * 10 + d2
      let hr := h1 * 10 + h2
      let mi := i1 * 10 + i2
      let se := s1 * 10 + s2
      if 1 ≤ mo ∧ mo ≤ 12 ∧ 1 ≤ dy ∧ dy ≤ daysInMonth y mo
          ∧ hr ≤ 23 ∧ mi ≤ 59 ∧ se ≤ 59 then
        some ⟨y, mo, dy, hr, mi, se⟩
      else none
    | _, _, _, _, _, _, _, _, _, _, _, _, _, _ => none
  else none

/-- Go `time.Parse` against layout `"2006-01-02 15:04"`. -/
def parseMinute (s : String) : Option DateTime :=
  let cs := s.data
  if cs.length = 16 ∧ charAt cs 4 '-' ∧ charAt cs 7 '-' ∧ charAt cs 10 ' '
      ∧ charAt cs 13 ':' then
    match digAt cs 0, digAt cs 1, digAt cs 2, digAt cs 3,
          digAt cs 5, digAt cs 6, digAt cs 8, digAt cs 9,
          digAt cs 11, digAt cs 12, digAt cs 14, digAt cs 15 with
    | some y1, some y2, some y3, some y4, some o1, some o2, some d1, some d2,
      some h1, some h2, some i1, some i2 =>
      let y := ((y1 * 10 + y2) * 10 + y3) * 10 + y4
      let mo := o1 * 10 + o2
      let dy := d1 * 10 + d2
      let hr := h1 * 10 + h2
      let mi := i1 * 10 + i2
      if 1 ≤ mo ∧ mo ≤ 12 ∧ 1 ≤ dy ∧ dy ≤ daysInMonth y mo
          ∧ hr ≤ 23 ∧ mi ≤ 59 then
        some ⟨y, mo, dy, hr, mi, 0⟩
      else none
    | _, _, _, _, _, _, _, _, _, _, _, _ => none
  else none

/-- Go `time.Parse` against layout `"2006-01-02"` (date only; the
parsed instant is midnight of that day). -/
def parseDate (s : String) : Option DateTime :=
  let cs := s.data
  if cs.length = 10 ∧ charAt cs 4 '-' ∧ charAt cs 7 '-' then
    match digAt cs 0, digAt cs 1, digAt cs 2, digAt cs 3,
          digAt cs 5, digAt cs 6, digAt cs 8, digAt cs 9 with
    | some y1, some y2, some y3, some y4, some o1, some o2, some d1, some d2 =>
      let y := ((y1 * 10 + y2) * 10 + y3) * 10 + y4
      let mo := o1 * 10 + o2
      let dy := d1 * 10 + d2
      if 1 ≤ mo ∧ mo ≤ 12 ∧ 1 ≤ dy ∧ dy ≤ daysInMonth y mo then
        some ⟨y, mo, dy, 0, 0, 0⟩
      else none
    | _, _, _, _, _, _, _, _ => none
  else none

/-- The loop in `CustomTimeRange` trying the three layouts in order. -/
def parseLayouts (s : String) : Option DateTime :=
  match parseFull s with
  | some dt => some dt
  | none =>
    match parseMinute s with
    | some dt => some dt
    | none => parseDate s

/-- `strings.Contains(s, ":")` specialised to the one-character needle
used by the source. -/
def containsColon (s : String) : Bool :=
  s.data.contains ':'

/-- The end instant used by `CustomTimeRange` after the date-only
widening step (`endTime.Add(23h).Add(59m).Add(59s)` when the end string
has no colon). -/
def widenEnd (endStr : String) (et : DateTime) : Int :=
  if containsColon endStr then dtToSec et
  else dtToSec et + (23 * 3600 + 59 * 60 + 59)

/-- `timeutil.CustomTimeRange`: parse custom start and end times with
the three layouts, widen a date-only end to the end of its day, then
validate the range. Errors are the source's message strings. -/
def CustomTimeRange (startStr endStr : String) : Except String (Int × Int) :=
  match parseLayouts startStr with
  | none => .error "invalid start time format. Use one of: YYYY-MM-DD HH:mm:ss, YYYY-MM-DD HH:mm, YYYY-MM-DD"
  | some st =>
    match parseLayouts endStr with
    | none => .error "invalid end time format. Use one of: YYYY-MM-DD HH:mm:ss, YYYY-MM-DD HH:mm, YYYY-MM-DD"
    | some et =>
      let startTime := dtToSec st
      let endTime := widenEnd endStr et
      let duration := endTime - startTime
      if duration < 0 then .error "end time cannot be before start time"
      else if duration > 24 * 3600 then .error "time range cannot exceed 24 hours"
      else .ok (startTime, endTime)

/-- The regular expression match of the source,
regexp `\d+` then `m` or `h`, anchored at both ends: the string must be
a nonempty digit string followed by a unit letter.  Returns the digit
list and the unit. -/
def regexNumUnit (s : String) : Option (List Char × Char) :=
  match s.data.getLast? with
  | none => none
  | some u =>
    if u == 'm' || u == 'h' then
      if s.data.dropLast ≠ [] ∧ s.data.dropLast.all Char.isDigit then
        some (s.data.dropLast, u)
      else none
    else none

/-- `timeutil.RelativeTimeRange`: parse and validate a relative time
range such as `5m` or `2h`, resolving to `[now - duration, now)`.
`now` (seconds) is passed explicitly in place of `time.Now()`. -/
def RelativeTimeRange (now : Int) (timeRange : String) : Except String (Int × Int) :=
  match regexNumUnit timeRange with
  | none => .error "invalid time range format. Use: Minutes: e.g., 5m for last 5 minutes; Hours: e.g., 2h for last 2 hours. Maximum allowed: 24h"
  | some (ds, u) =>
    let value := natOfDigits ds
    if u == 'm' then
      if value ≤ 0 ∨ value > 1440 then
        .error "minutes must be between 1 and 1440 (24 hours)"
      else .ok (now - value * 60, now)
    else
      if value ≤ 0 ∨ value > 24 then
        .error "hours must be between 1 and 24"
      else .ok (now - value * 3600, now)

/-- `timeutil.ValidateAndParseTimeRange`: dispatch between the relative
and the custom path, rejecting ambiguous or empty flag combinations. -/
def ValidateAndParseTimeRange (now : Int) (lastN startStr endStr : String) :
    Except String (Int × Int) :=
  if lastN ≠ "" then
    if startStr ≠ "" ∨ endStr ≠ "" then
      .error "cannot use --last-n with --start/--end flags"
    else RelativeTimeRange now lastN
  else if (startStr ≠ "" ∧ endStr = "") ∨ (startStr = "" ∧ endStr ≠ "") then
    .error "both --start and --end must be provided together"
  else if startStr = "" ∧ endStr = "" then
    .error "either --last-n or both --start and --end must be provided"
  else CustomTimeRange startStr endStr

/-! ## JSON documents

Go's `map[string]interface{}` obtained from `json.Unmarshal` is embedded
as an inductive `Json` value whose objects are association lists (kept in
source order; Go's map loses order and deduplicates, and `MarshalIndent`
re-sorts keys — the claims below do not depend on that difference).
Numbers are modelled as integers (`float64` payloads are outside the
model; no claim depends on them). -/

inductive Json where
  | null
  | bool (b : Bool)
  | num (n : Int)
  | str (s : String)
  | arr (elements : List Json)
  | obj (members : List (String × Json))
deriving Repr

/-- The opening-brace character, written via its code point. -/
def lbrace : Char := Char.ofNat 123

/-- The closing-brace character, written via its code point. -/
def rbrace : Char := Char.ofNat 125

/-- JSON insignificant whitespace. -/
def isWs (c : Char) : Bool := c == ' ' || c == '\n' || c == '\t' || c == '\r'

/-- Drop leading JSON whitespace. -/
def skipWs : List Char → List Char
  | [] => []
  | c :: cs => if isWs c then skipWs cs else c :: cs

/-- Value of a hexadecimal digit (both cases accepted, as Go's decoder). -/
def hexVal (c : Char) : Option Nat :=
  if 48 ≤ c.toNat ∧ c.toNat ≤ 57 then some (c.toNat - 48)
  else if 97 ≤ c.toNat ∧ c.toNat ≤ 102 then some (c.toNat - 87)
  else if 65 ≤ c.toNat ∧ c.toNat ≤ 70 then some (c.toNat - 55)
  else none

/-- Prepend a character to the first component of a parse result. -/
def consFst (c : Char) (r : List Char × List Char) : List Char × List Char :=
  (c :: r.1, r.2)

/-- Body of a JSON string after the opening quote: unescape until the
closing quote, returning the decoded characters and the rest of the
input (the escape forms Go's decoder accepts). -/
def parseStringBody : List Char → Option (List Char × List Char)
  | [] => none
  | c :: cs =>
    if c == '"' then some ([], cs)
    else if c == '\\' then
      match cs with
      | [] => none
      | e :: cs2 =>
        if e == '"' then Option.map (consFst '"') (parseStringBody cs2)
        else if e == '\\' then Option.map (consFst '\\') (parseStringBody cs2)
        else if e == '/' then Option.map (consFst '/') (parseStringBody cs2)
        else if e == 'n' then Option.map (consFst '\n') (parseStringBody cs2)
        else if e == 't' then Option.map (consFst '\t') (parseStringBody cs2)
        else if e == 'r' then Option.map (consFst '\r') (parseStringBody cs2)
        else if e == 'b' then Option.map (consFst (Char.ofNat 8)) (parseStringBody cs2)
        else if e == 'f' then Option.map (consFst (Char.ofNat 12)) (parseStringBody cs2)
        else if e == 'u' then
          match cs2 with
          | h1 :: h2 :: h3 :: h4 :: cs3 =>
            match hexVal h1, hexVal h2, hexVal h3, hexVal h4 with
            | some v1, some v2, some v3, some v4 =>
              Option.map (consFst (Char.ofNat (((v1 * 16 + v2) * 16 + v3) * 16 + v4)))
                (parseStringBody cs3)
            | _, _, _, _ => none
          | _ => none
        else none
    else if c.toNat < 32 then none
    else Option.map (consFst c) (parseStringBody cs)

/-- Longest digit prefix of the input, and the rest. -/
def readDigits : List Char → List Char × List Char
  | [] => ([], [])
  | c :: cs =>
    if c.isDigit then
      match readDigits cs with
      | (ds, rest) => (c :: ds, rest)
    else ([], c :: cs)

/-- Fuel-bounded JSON parser. `mode` 0 parses one value, `mode` 1 the
items of a non-empty array up to and including the closing bracket,
`mode` 2 the members of a non-empty object up to and including the
closing brace. -/
def parseGo : Nat → Nat → List Char → Option (Json × List Char)
  | 0, _, _ => none
  | fuel + 1, mode, s =>
    if mode = 1 then
      match parseGo fuel 0 s with
      | none => none
      | some (v, rest) =>
        match skipWs rest with
        | [] => none
        | c :: rest2 =>
          if c == ',' then
            match parseGo fuel 1 rest2 with
            | some (Json.arr vs, rest3) => some (Json.arr (v :: vs), rest3)
            | _ => none
          else if c == ']' then some (Json.arr [v], rest2)
          else none
    else if mode = 2 then
      match skipWs s with
      | [] => none
      | c :: cs =>
        if c == '"' then
          match parseStringBody cs with
          | none => none
          | some (key, rest) =>
            match skipWs rest with
            | [] => none
            | c2 :: rest2 =>
              if c2 == ':' then
                match parseGo fuel 0 rest2 with
                | none => none
                | some (v, rest3) =>
                  match skipWs rest3 with
                  | [] => none
                  | c3 :: rest4 =>
                    if c3 == ',' then
                      match parseGo fuel 2 rest4 with
                      | some (Json.obj kvs, rest5) => some (Json.obj ((⟨key⟩, v) :: kvs), rest5)
                      | _ => none
                    else if c3 == rbrace then some (Json.obj [(⟨key⟩, v)], rest4)
                    else none
              else none
        else none
    else
      match skipWs s with
      | [] => none
      | c :: cs =>
        if c == lbrace then
          match skipWs cs with
          | [] => none
          | c2 :: cs2 =>
            if c2 == rbrace then some (Json.obj [], cs2)
            else parseGo fuel 2 cs
        else if c == '[' then
          match skipWs cs with
          | [] => none
          | c2 :: cs2 =>
            if c2 == ']' then some (Json.arr [], cs2)
            else parseGo fuel 1 cs
        else if c == '"' then
          match parseStringBody cs with
          | some (body, rest) => some (Json.str ⟨body⟩, rest)
          | none => none
        else if c == 't' then
          match cs with
          | 'r' :: 'u' :: 'e' :: rest => some (Json.bool true, rest)
          | _ => none
        else if c == 'f' then
          match cs with
          | 'a' :: 'l' :: 's' :: 'e' :: rest => some (Json.bool false, rest)
          | _ => none
        else if c == 'n' then
          match cs with
          | 'u' :: 'l' :: 'l' :: rest => some (Json.null, rest)
          | _ => none
        else if c == '-' then
          match readDigits cs with
          | ([], _) => none
          | (ds, rest) => some (Json.num (-(natOfDigits ds : Int)), rest)
        else if c.isDigit then
          match readDigits (c :: cs) with
          | ([], _) => none
          | (ds, rest) => some (Json.num (natOfDigits ds), rest)
        else none

/-- Parse a whole string as one JSON document (as `json.Unmarshal`:
a single value followed only by whitespace).  The fuel `2·length + 2`
bounds the parser's call depth, which grows by at most two per input
character. -/
def parseJson (s : String) : Option Json :=
  match parseGo (2 * s.data.length + 2) 0 s.data with
  | some (j, rest) => if skipWs rest = [] then some j else none
  | none => none

/-! ## JSON rendering (Go `json.MarshalIndent(v, "", "  ")`) -/

/-- Lowercase hexadecimal digit, as Go's encoder emits. -/
def hexDigChar (n : Nat) : Char :=
  if n < 10 then Char.ofNat (48 + n) else Char.ofNat (87 + n)

/-- Escape one character the way Go's `encoding/json` encoder does
(HTML escaping on, as in `json.Marshal`): quote, backslash, newline,
carriage return, tab, the HTML characters, other control characters as
`\u00xx`, and the two Unicode line separators. -/
def escChar (c : Char) : List Char :=
  if c == '"' then ['\\', '"']
  else if c == '\\' then ['\\', '\\']
  else if c == '\n' then ['\\', 'n']
  else if c == '\r' then ['\\', 'r']
  else if c == '\t' then ['\\', 't']
  else if c == '<' then ['\\', 'u', '0', '0', '3', 'c']
  else if c == '>' then ['\\', 'u', '0', '0', '3', 'e']
  else if c == '&' then ['\\', 'u', '0', '0', '2', '6']
  else if c.toNat < 32 then
    ['\\', 'u', '0', '0', hexDigChar (c.toNat / 16), hexDigChar (c.toNat % 16)]
  else if c.toNat = 8232 then ['\\', 'u', '2', '0', '2', '8']
  else if c.toNat = 8233 then ['\\', 'u', '2', '0', '2', '9']
  else [c]

/-- Escape a character list. -/
def escapeChars : List Char → List Char
  | [] => []
  | c :: cs => escChar c ++ escapeChars cs

/-- A rendered JSON string literal. -/
def renderString (s : String) : List Char :=
  '"' :: escapeChars s.data ++ ['"']

/-- Decimal rendering of a natural number (fuel-bounded so that the
definition is structural; `n + 1` fuel always suffices). -/
def renderNatAux : Nat → Nat → List Char
  | 0, _ => []
  | fuel + 1, n =>
    if n < 10 then [Char.ofNat (48 + n)]
    else renderNatAux fuel (n / 10) ++ [Char.ofNat (48 + n % 10)]

/-- Decimal rendering of a natural number. -/
def renderNat (n : Nat) : List Char := renderNatAux (n + 1) n

/-- Decimal rendering of an integer. -/
def renderInt (n : Int) : List Char :=
  if n < 0 then '-' :: renderNat n.natAbs else renderNat n.natAbs

/-- The indentation prefix at nesting depth `n` for indent string
`"  "`. -/
def indentChars (n : Nat) : List Char := List.replicate (2 * n) ' '

mutual

/-- Pretty-print one JSON value at nesting depth `i`, following
`json.MarshalIndent(v, "", "  ")`. -/
def renderV (i : Nat) : Json → List Char
  | .null => "null".data
  | .bool true => "true".data
  | .bool false => "false".data
  | .num n => renderInt n
  | .str s => renderString s
  | .arr [] => ['[', ']']
  | .arr (x :: xs) =>
    '[' :: '\n' :: renderL (i + 1) (x :: xs) ++ '\n' :: indentChars i ++ [']']
  | .obj [] => [lbrace, rbrace]
  | .obj (kv :: kvs) =>
    lbrace :: '\n' :: renderM (i + 1) (kv :: kvs) ++ '\n' :: indentChars i ++ [rbrace]

/-- Pretty-print the comma-separated items of an array, one per line. -/
def renderL (i : Nat) : List Json → List Char
  | [] => []
  | [x] => indentChars i ++ renderV i x
  | x :: y :: xs => indentChars i ++ renderV i x ++ ',' :: '\n' :: renderL i (y :: xs)

/-- Pretty-print the comma-separated members of an object, one per
line. -/
def renderM (i : Nat) : List (String × Json) → List Char
  | [] => []
  | [(k, v)] => indentChars i ++ renderString k ++ ':' :: ' ' :: renderV i v
  | (k, v) :: m :: kvs =>
    indentChars i ++ renderString k ++ ':' :: ' ' :: renderV i v
      ++ ',' :: '\n' :: renderM i (m :: kvs)

end

/-- Marshal a JSON document at top level. -/
def renderJson (j : Json) : String := ⟨renderV 0 j⟩

/-! ## The monitor (internal/monitor/monitor.go) -/

/-- One entry of `types.Event.Resources` (`types.Resource`): the two
pointer fields used by the source. -/
structure Resource where
  resourceName : Option String
  resourceType : Option String
deriving Repr, DecidableEq

/-- A retrieved CloudTrail event (`types.Event`); the fields the source
reads.  Pointer fields are options; `eventTime` is an instant in
seconds; `cloudTrailEvent` is the raw detail JSON document. -/
structure Event where
  eventName : Option String
  eventTime : Int
  eventSource : Option String
  username : Option String
  resources : Option (List Resource)
  cloudTrailEvent : Option String
deriving Repr, DecidableEq

/-- `monitor.FilterOptions`. -/
structure FilterOptions where
  KeyID : String
  EventName : String
  UserName : String
  Operation : String
  ErrorsOnly : Bool
  SuccessOnly : Bool
deriving Repr, DecidableEq

/-- Whether the needle is a prefix of the haystack. -/
def startsWithList : List Char → List Char → Bool
  | [], _ => true
  | _ :: _, [] => false
  | a :: as, b :: bs => a == b && startsWithList as bs

/-- Whether the needle occurs contiguously in the haystack. -/
def goContainsList (needle : List Char) : List Char → Bool
  | [] => needle.isEmpty
  | c :: cs => startsWithList needle (c :: cs) || goContainsList needle cs

/-- Go `strings.Contains s sub`. -/
def goContains (s sub : String) : Bool := goContainsList sub.data s.data

/-- Go `strings.ToLower` (modelled character-wise; `Char.toLower`
matches Go's simple case mapping on the ASCII range used here). -/
def goToLower (s : String) : String := ⟨s.data.map Char.toLower⟩

/-- `json.Unmarshal(raw, &eventDetails)` into a
`map[string]interface{}`: succeeds only when the document is an
object. -/
def unmarshalMap (raw : String) : Option (List (String × Json)) :=
  match parseJson raw with
  | some (Json.obj kvs) => some kvs
  | _ => none

/-- Go map indexing (`m[k]`): in an association list built from a JSON
object the last binding for a key wins, as it does in `Unmarshal`. -/
def objGet (kvs : List (String × Json)) (k : String) : Option Json :=
  kvs.foldl (fun acc p => if p.1 == k then some p.2 else acc) none

/-- `m[k].(string)`: indexing followed by a string type assertion. -/
def getString (kvs : List (String × Json)) (k : String) : Option String :=
  match objGet kvs k with
  | some (Json.str s) => some s
  | _ => none

/-- `m[k].(map[string]interface{})`: indexing followed by a map type
assertion. -/
def getObj (kvs : List (String × Json)) (k : String) : Option (List (String × Json)) :=
  match objGet kvs k with
  | some (Json.obj m) => some m
  | _ => none

/-- The resource half of the `KeyID` filter in `matchesFilter`: some
resource has type `AWS::KMS::Key` and a name containing the key. -/
def keyIDResourceMatch (resources : Option (List Resource)) (keyID : String) : Bool :=
  match resources with
  | none => false
  | some rs =>
    rs.any fun r =>
      match r.resourceType, r.resourceName with
      | some t, some n => t == "AWS::KMS::Key" && goContains n keyID
      | _, _ => false

/-- The detail half of the `KeyID` filter in `matchesFilter`: the parsed
detail document's `requestParameters.keyId` string contains the key. -/
def keyIDDetailsMatch (cloudTrailEvent : Option String) (keyID : String) : Bool :=
  match cloudTrailEvent with
  | none => false
  | some raw =>
    match unmarshalMap raw with
    | none => false
    | some doc =>
      match getObj doc "requestParameters" with
      | none => false
      | some reqParams =>
        match getString reqParams "keyId" with
        | none => false
        | some keyArn => goContains keyArn keyID

/-- The `ErrorsOnly`/`SuccessOnly` block of `matchesFilter`: the checks
run only when the raw detail document is present and unmarshals; Go's
`errorCode, hasError := eventDetails["errorCode"].(string)` yields
`hasError` exactly when the key holds a string (possibly empty). -/
def errSuccessCheck (e : Event) (filters : FilterOptions) : Bool :=
  if filters.ErrorsOnly || filters.SuccessOnly then
    match e.cloudTrailEvent with
    | none => true
    | some raw =>
      match unmarshalMap raw with
      | none => true
      | some doc =>
        if filters.ErrorsOnly && (getString doc "errorCode").isNone then false
        else if filters.SuccessOnly && (getString doc "errorCode").isSome
            && ((getString doc "errorCode").getD "" != "") then false
        else true
  else true

/-- `monitor.matchesFilter`: the multi-criteria filter predicate; each
early `return false` of the source becomes one conjunct. -/
def matchesFilter (event : Event) (filters : FilterOptions) : Bool :=
  (filters.KeyID == ""
      || keyIDResourceMatch event.resources filters.KeyID
      || keyIDDetailsMatch event.cloudTrailEvent filters.KeyID)
    && (filters.EventName == ""
      || (match event.eventName with
          | none => false
          | some n => goContains (goToLower n) (goToLower filters.EventName)))
    && (filters.UserName == ""
      || (match event.username with
          | none => false
          | some u => goContains (goToLower u) (goToLower filters.UserName)))
    && (filters.Operation == ""
      || (match event.eventName with
          | none => false
          | some n => goContains n filters.Operation))
    && errSuccessCheck event filters

/-- `g` extends `f` by exactly one criterion: `f` is `g` with one of the
six filter fields reset to its zero value. -/
def oneMoreCriterion (f g : FilterOptions) : Prop :=
  f = {g with KeyID := ""} ∨ f = {g with EventName := ""} ∨ f = {g with UserName := ""} ∨
  f = {g with Operation := ""} ∨ f = {g with ErrorsOnly := false} ∨
  f = {g with SuccessOnly := false}

/-- The console warnings emitted while processing one matching event in
`MonitorKMSEvents`: a parse warning when the raw detail document fails
to unmarshal, and a write warning when the sink write fails.  The sink
is abstracted as `w`. -/
def eventWarnings (w : Event → Except String Unit) (ev : Event) : List String :=
  (match ev.cloudTrailEvent with
   | some raw =>
     match unmarshalMap raw with
     | none => ["Warning: Failed to parse event details"]
     | some _ => []
   | none => [])
  ++ (match w ev with
      | .error msg => ["Warning: Failed to write to log file: " ++ msg]
      | .ok _ => [])

/-- The inner per-page loop of `MonitorKMSEvents`: count matching
events and collect per-event warnings; per-event failures never stop
the loop. -/
def processPage (f : FilterOptions) (w : Event → Except String Unit) :
    List Event → Nat × List String
  | [] => (0, [])
  | ev :: rest =>
    match processPage f w rest with
    | (c, ws) =>
      if matchesFilter ev f then (c + 1, eventWarnings w ev ++ ws) else (c, ws)

/-- `monitor.MonitorKMSEvents`: drive the paginator until no pages
remain; a failed page request aborts the scan with the wrapped error;
the final count and accumulated warnings are returned on success (the
Go function prints them and returns `nil`). -/
def MonitorKMSEvents (f : FilterOptions) (w : Event → Except String Unit) :
    List (Except String (List Event)) → Nat → List String →
    Except String (Nat × List String)
  | [], count, warns => .ok (count, warns)
  | .error e :: _, _, _ => .error ("error looking up events: " ++ e)
  | .ok evs :: rest, count, warns =>
    match processPage f w evs with
    | (c, ws) => MonitorKMSEvents f w rest (count + c) (warns ++ ws)

/-- The first failing page request of a run, if any. -/
def firstPageError : List (Except String (List Event)) → Option String
  | [] => none
  | .error e :: _ => some e
  | .ok _ :: rest => firstPageError rest

/-- The value `MonitorKMSEvents` actually returns in Go (`error` or
`nil`): the run result with the printed summary projected away. -/
def runResult (r : Except String (Nat × List String)) : Except String Unit :=
  r.map fun _ => ()

/-! ## The writer (internal/writer/writer.go) -/

/-- `writer.LogWriter` (the mutex only guards the write path and has no
observable state). -/
structure LogWriter where
  outputDir : String
  serviceTag : String
  customFile : String
  exportMode : String
deriving Repr, DecidableEq

/-- `writer.ExportOptions`. -/
structure ExportOptions where
  Filename : String
  Format : String
deriving Repr, DecidableEq

/-- `writer.NewLogWriter` (directory creation is an effect outside the
model). -/
def NewLogWriter (outputDir serviceTag : String) (options : Option ExportOptions) :
    LogWriter :=
  { outputDir := outputDir
    serviceTag := serviceTag
    customFile := (options.map ExportOptions.Filename).getD ""
    exportMode := (options.map ExportOptions.Format).getD "" }

/-- `monitor.SafeString` / `writer.SafeString`. -/
def SafeString (s : Option String) : String :=
  match s with
  | none => "N/A"
  | some v => v

/-- `filepath.Join` on the writer's three components (the source's
arguments never need Go's path cleaning). -/
def filepathJoin3 (a b c : String) : String := a ++ "/" ++ b ++ "/" ++ c

/-- The daily log-file name used when no explicit destination is
configured: `<outputDir>/<serviceTag>/<serviceTag>-events-<date>.log`,
with `today` standing for `time.Now().Format("2006-01-02")` at the
moment of the call. -/
def logFileName (w : LogWriter) (today : String) : String :=
  filepathJoin3 w.outputDir w.serviceTag (w.serviceTag ++ "-events-" ++ today ++ ".log")

/-- The destination the next write opens: the explicit file when
configured, else the daily file. -/
def writeFilename (w : LogWriter) (today : String) : String :=
  if w.customFile ≠ "" then w.customFile else logFileName w today

/-- `writer.GetCurrentFile`. -/
def GetCurrentFile (w : LogWriter) (today : String) : String :=
  if w.customFile ≠ "" then w.customFile else logFileName w today

/-- Civil date of a day number (inverse of `daysFromCivil`). -/
def civilFromDays (z0 : Int) : Int × Int × Int :=
  match (z0 + 719468 : Int) with
  | z =>
    match ((if 0 ≤ z then z else z - 146096) / 146097 : Int) with
    | era =>
      match (z - era * 146097 : Int) with
      | doe =>
        match ((doe - doe / 1460 + doe / 36524 - doe / 146096) / 365 : Int) with
        | yoe =>
          match (doe - (365 * yoe + yoe / 4 - yoe / 100) : Int) with
          | doy =>
            match ((5 * doy + 2) / 153 : Int) with
            | mp =>
              (yoe + era * 400 + (if mp ≥ 10 then 1 else 0),
               mp + (if mp < 10 then 3 else -9),
               doy - (153 * mp + 2) / 5 + 1)

/-- Left-pad a decimal rendering with zeros to a given width. -/
def padNat (width n : Nat) : String :=
  ⟨List.replicate (width - (renderNat n).length) '0' ++ renderNat n⟩

/-- `t.Format("2006-01-02 15:04:05")` of an instant in seconds. -/
def goFormatDateTime (t : Int) : String :=
  match (t.fdiv 86400 : Int) with
  | days =>
    match (t - days * 86400).toNat with
    | rem =>
      match civilFromDays days with
      | (y, m, d) =>
        padNat 4 y.toNat ++ "-" ++ padNat 2 m.toNat ++ "-" ++ padNat 2 d.toNat
          ++ " " ++ padNat 2 (rem / 3600) ++ ":" ++ padNat 2 (rem % 3600 / 60)
          ++ ":" ++ padNat 2 (rem % 60)

/-- `t.Format("2006-01-02")` of an instant in seconds. -/
def goFormatDate (t : Int) : String :=
  match civilFromDays (t.fdiv 86400) with
  | (y, m, d) => padNat 4 y.toNat ++ "-" ++ padNat 2 m.toNat ++ "-" ++ padNat 2 d.toNat

/-- A `*string` marshalled by `encoding/json`: `null` when nil. -/
def optStrJson (s : Option String) : Json :=
  match s with
  | some v => Json.str v
  | none => Json.null

/-- One `types.Resource` as `encoding/json` marshals it. -/
def resourceJson (r : Resource) : Json :=
  Json.obj [("ResourceName", optStrJson r.resourceName),
            ("ResourceType", optStrJson r.resourceType)]

/-- The `Resources` slice as `encoding/json` marshals it: `null` for a
nil slice. -/
def resourcesJson (rs : Option (List Resource)) : Json :=
  match rs with
  | none => Json.null
  | some l => Json.arr (l.map resourceJson)

/-- The JSON object `WriteEvent` builds for one event in `json` export
mode, with its keys in the alphabetical order `MarshalIndent` emits for
a Go map. -/
def eventJson (ev : Event) (details : Option (List (String × Json))) : Json :=
  Json.obj
    [("details", match details with
                 | some kvs => Json.obj kvs
                 | none => Json.null),
     ("eventName", Json.str (SafeString ev.eventName)),
     ("eventSource", Json.str (SafeString ev.eventSource)),
     ("resources", resourcesJson ev.resources),
     ("timestamp", Json.str (goFormatDateTime ev.eventTime)),
     ("user", Json.str (SafeString ev.username))]

/-- A detail value printed with Go's `%v` verb in the text export
(modelled up to `%v`'s rendering of nested composites, which no claim
inspects). -/
def goFmtValue : Json → String
  | .null => "<nil>"
  | .bool true => "true"
  | .bool false => "false"
  | .num n => ⟨renderInt n⟩
  | .str s => s
  | .arr _ => "[...]"
  | .obj _ => "map[...]"

/-- One indented `key: value` line of the text export. -/
def detailLine (kv : String × Json) : String :=
  match kv with
  | (k, v) => "    " ++ k ++ ": " ++ goFmtValue v ++ "\n"

/-- `writer.formatEventAsText`: the fixed text block for one event. -/
def formatEventAsText (ev : Event) (details : Option (List (String × Json))) : String :=
  "[" ++ goFormatDateTime ev.eventTime ++ "] " ++ SafeString ev.eventName ++ "\n"
    ++ "Source: " ++ SafeString ev.eventSource ++ "\n"
    ++ "User: " ++ SafeString ev.username ++ "\n"
    ++ (match ev.resources with
        | none => ""
        | some [] => ""
        | some rs =>
          "Resources:\n"
            ++ String.join (rs.map fun r =>
              "  - " ++ SafeString r.resourceName ++ " (" ++ SafeString r.resourceType ++ ")\n"))
    ++ (match details with
        | none => ""
        | some doc =>
          "Details:\n"
            ++ (match getObj doc "requestParameters" with
                | some reqParams =>
                  if reqParams.length > 0 then
                    "  Request Parameters:\n" ++ String.join (reqParams.map detailLine)
                  else ""
                | none => "")
            ++ (match getObj doc "responseElements" with
                | some respElements =>
                  if respElements.length > 0 then
                    "  Response Elements:\n" ++ String.join (respElements.map detailLine)
                  else ""
                | none => ""))
    ++ ⟨List.replicate 80 '-'⟩ ++ "\n"

/-- `writer.WriteEvent` modelled as the pure pair (destination path,
appended record): path resolution exactly as the source, then the JSON
or text rendering of the event.  `today` is the clock's date at the
moment of the write. -/
def WriteEvent (w : LogWriter) (today : String) (ev : Event)
    (details : Option (List (String × Json))) : String × String :=
  (if w.customFile ≠ "" then w.customFile else logFileName w today,
   if w.exportMode = "json" then renderJson (eventJson ev details) ++ "\n"
   else formatEventAsText ev details)

/-! ## Decoding the marshalled event back (round-trip claim) -/

/-- Read back a marshalled `*string`: `null` decodes to nil, a string
to itself (specification-side inverse for the round-trip claim). -/
def decodeOptStr : Json → Option (Option String)
  | Json.null => some none
  | Json.str s => some (some s)
  | _ => none

/-- Read back one marshalled `types.Resource` (specification-side
inverse for the round-trip claim). -/
def decodeResource : Json → Option Resource
  | Json.obj [(n1, v1), (n2, v2)] =>
    if n1 = "ResourceName" ∧ n2 = "ResourceType" then
      match decodeOptStr v1, decodeOptStr v2 with
      | some a, some b => some ⟨a, b⟩
      | _, _ => none
    else none
  | _ => none

/-- Read back the marshalled `Resources` slice (specification-side
inverse for the round-trip claim). -/
def decodeResources : Json → Option (Option (List Resource))
  | Json.null => some none
  | Json.arr l => (l.mapM decodeResource).map some
  | _ => none

/-- Look a key up in a parsed JSON document (`m[k]` after a successful
`json.Unmarshal` into a map). -/
def jsonField (j : Json) (k : String) : Option Json :=
  match j with
  | Json.obj kvs => objGet kvs k
  | _ => none

/-! ## Helper lemmas for the time utilities -/

theorem digAt_eq_some (cs : List Char) (i v : Nat) (h : digAt cs i = some v) :
    ∃ c, cs.get? i = some c ∧ c.isDigit = true := by
  unfold digAt at h
  cases hg : cs.get? i with
  | none => rw [hg] at h; exact absurd h (by simp)
  | some c =>
    rw [hg] at h
    dsimp only at h
    split at h
    · exact ⟨c, rfl, by assumption⟩
    · exact absurd h (by simp)

theorem regexNumUnit_eq_some (s : String) (ds : List Char) (u : Char) :
    regexNumUnit s = some (ds, u) ↔
      s.data = ds ++ [u] ∧ (u = 'm' ∨ u = 'h') ∧ ds ≠ [] ∧ ds.all Char.isDigit := by
  constructor
  · intro h
    unfold regexNumUnit at h
    cases hl : s.data.getLast? with
    | none => rw [hl] at h; exact absurd h (by simp)
    | some u0 =>
      rw [hl] at h
      dsimp only at h
      by_cases hu : (u0 == 'm' || u0 == 'h') = true
      · rw [if_pos hu] at h
        split at h
        · rename_i hcond
          simp only [Option.some.injEq, Prod.mk.injEq] at h
          obtain ⟨hds, huu⟩ := h
          have hdata : ds ++ [u] = s.data := by
            rw [← hds, ← huu]
            exact List.dropLast_append_getLast? u0 hl
          refine ⟨hdata.symm, ?_, hds ▸ hcond.1, hds ▸ hcond.2⟩
          rcases Bool.or_eq_true _ _ |>.mp (huu ▸ hu) with h1 | h1
          · exact Or.inl (by simpa using h1)
          · exact Or.inr (by simpa using h1)
        · exact absurd h (by simp)
      · rw [if_neg hu] at h
        exact absurd h (by simp)
  · rintro ⟨hdata, hu, hne, hdig⟩
    unfold regexNumUnit
    rw [hdata]
    have hlast : (ds ++ [u]).getLast? = some u := by
      simp
    rw [hlast]
    dsimp only
    have hub : (u == 'm' || u == 'h') = true := by
      rcases hu with h | h <;> simp [h]
    rw [if_pos hub]
    have hdrop : (ds ++ [u]).dropLast = ds := by
      simp [List.dropLast_append_of_ne_nil]
    rw [hdrop, if_pos ⟨hne, hdig⟩]

theorem relative_bounds (now : Int) (s : String) (a b : Int)
    (h : RelativeTimeRange now s = .ok (a, b)) : a ≤ b ∧ b - a ≤ 86400 := by
  unfold RelativeTimeRange at h
  cases hr : regexNumUnit s with
  | none => rw [hr] at h; exact absurd h (by simp)
  | some du =>
    obtain ⟨ds, u⟩ := du
    rw [hr] at h
    simp only at h
    by_cases hu : (u == 'm') = true
    · rw [if_pos hu] at h
      split at h
      · exact absurd h (by simp)
      · rename_i hrange
        push_neg at hrange
        simp only [Except.ok.injEq, Prod.mk.injEq] at h
        obtain ⟨ha, hb⟩ := h
        subst ha; subst hb
        constructor
        · have : (0:Int) ≤ (natOfDigits ds : Int) * 60 := by positivity
          omega
        · have h1 : (natOfDigits ds : Nat) ≤ 1440 := hrange.2
          have : ((natOfDigits ds : Nat) : Int) * 60 ≤ 1440 * 60 := by
            have := Int.ofNat_le.mpr h1
            nlinarith
          omega
    · rw [if_neg hu] at h
      split at h
      · exact absurd h (by simp)
      · rename_i hrange
        push_neg at hrange
        simp only [Except.ok.injEq, Prod.mk.injEq] at h
        obtain ⟨ha, hb⟩ := h
        subst ha; subst hb
        constructor
        · have : (0:Int) ≤ (natOfDigits ds : Int) * 3600 := by positivity
          omega
        · have h1 : (natOfDigits ds : Nat) ≤ 24 := hrange.2
          have : ((natOfDigits ds : Nat) : Int) * 3600 ≤ 24 * 3600 := by
            have := Int.ofNat_le.mpr h1
            nlinarith
          omega

theorem custom_bounds (s e : String) (a b : Int)
    (h : CustomTimeRange s e = .ok (a, b)) : a ≤ b ∧ b - a ≤ 86400 := by
  unfold CustomTimeRange at h
  cases hs : parseLayouts s with
  | none => rw [hs] at h; exact absurd h (by simp)
  | some st =>
    cases he : parseLayouts e with
    | none => rw [hs, he] at h; exact absurd h (by simp)
    | some et =>
      rw [hs, he] at h
      simp only at h
      split at h
      · exact absurd h (by simp)
      · split at h
        · exact absurd h (by simp)
        · rename_i h1 h2
          simp only [Except.ok.injEq, Prod.mk.injEq] at h
          omega

theorem parseDate_shape (s : String) (dt : DateTime) (h : parseDate s = some dt) :
    s.data.length = 10 ∧ dt.hour = 0 ∧ dt.minute = 0 ∧ dt.second = 0 ∧
      (∀ c ∈ s.data, c.isDigit = true ∨ c = '-') := by
  unfold parseDate at h
  dsimp only at h
  split at h
  case isFalse => exact absurd h (by simp)
  case isTrue hcond =>
    obtain ⟨hlen, h4, h7⟩ := hcond
    split at h
    case h_2 => exact absurd h (by simp)
    case h_1 v0 v1 v2 v3 v4 v5 v6 v7 e0 e1 e2 e3 e5 e6 e8 e9 =>
      split at h
      case isFalse => exact absurd h (by simp)
      case isTrue =>
        simp only [Option.some.injEq] at h
        refine ⟨hlen, by rw [← h], by rw [← h], by rw [← h], ?_⟩
        intro c hc
        obtain ⟨i, hi, hgi⟩ := List.mem_iff_getElem.mp hc
        have hget : s.data.get? i = some c := by
          rw [List.get?_eq_getElem?]
          exact List.getElem?_eq_some_iff.mpr ⟨hi, hgi⟩
        rw [hlen] at hi
        interval_cases i
        · obtain ⟨c0, hc0, hd0⟩ := digAt_eq_some _ _ _ e0
          rw [hget] at hc0
          injection hc0 with hcc
          exact Or.inl (hcc ▸ hd0)
        · obtain ⟨c0, hc0, hd0⟩ := digAt_eq_some _ _ _ e1
          rw [hget] at hc0
          injection hc0 with hcc
          exact Or.inl (hcc ▸ hd0)
        · obtain ⟨c0, hc0, hd0⟩ := digAt_eq_some _ _ _ e2
          rw [hget] at hc0
          injection hc0 with hcc
          exact Or.inl (hcc ▸ hd0)
        · obtain ⟨c0, hc0, hd0⟩ := digAt_eq_some _ _ _ e3
          rw [hget] at hc0
          injection hc0 with hcc
          exact Or.inl (hcc ▸ hd0)
        · have hd : s.data.get? 4 = some '-' := by
            have := h4
            unfold charAt at this
            exact eq_of_beq this
          rw [hget] at hd
          injection hd with hh
          exact Or.inr hh
        · obtain ⟨c0, hc0, hd0⟩ := digAt_eq_some _ _ _ e5
          rw [hget] at hc0
          injection hc0 with hcc
          exact Or.inl (hcc ▸ hd0)
        · obtain ⟨c0, hc0, hd0⟩ := digAt_eq_some _ _ _ e6
          rw [hget] at hc0
          injection hc0 with hcc
          exact Or.inl (hcc ▸ hd0)
        · have hd : s.data.get? 7 = some '-' := by
            have := h7
            unfold charAt at this
            exact eq_of_beq this
          rw [hget] at hd
          injection hd with hh
          exact Or.inr hh
        · obtain ⟨c0, hc0, hd0⟩ := digAt_eq_some _ _ _ e8
          rw [hget] at hc0
          injection hc0 with hcc
          exact Or.inl (hcc ▸ hd0)
        · obtain ⟨c0, hc0, hd0⟩ := digAt_eq_some _ _ _ e9
          rw [hget] at hc0
          injection hc0 with hcc
          exact Or.inl (hcc ▸ hd0)

theorem parseDate_noColon (s : String) (dt : DateTime) (h : parseDate s = some dt) :
    containsColon s = false := by
  have hsh := parseDate_shape s dt h
  unfold containsColon
  rw [Bool.eq_false_iff]
  intro hc
  have hmem : ':' ∈ s.data := by
    obtain ⟨c, hcm, hbeq⟩ := List.contains_iff_exists_mem_beq.mp hc
    have hcq : (':' : Char) = c := eq_of_beq hbeq
    rwa [hcq]
  rcases hsh.2.2.2.2 ':' hmem with hd | hd
  · exact absurd hd (by decide)
  · exact absurd hd (by decide)

theorem parseDate_layouts (s : String) (dt : DateTime) (h : parseDate s = some dt) :
    parseLayouts s = some dt := by
  have hlen := (parseDate_shape s dt h).1
  have hf : parseFull s = none := by
    unfold parseFull
    dsimp only
    rw [if_neg]
    intro hcond
    omega
  have hm : parseMinute s = none := by
    unfold parseMinute
    dsimp only
    rw [if_neg]
    intro hcond
    omega
  unfold parseLayouts
  rw [hf]
  dsimp only
  rw [hm]
  dsimp only
  exact h

theorem dtToSec_zero_hms (dt : DateTime) (h0 : dt.hour = 0) (h1 : dt.minute = 0)
    (h2 : dt.second = 0) :
    dtToSec dt + (23 * 3600 + 59 * 60 + 59) =
      dtToSec ⟨dt.year, dt.month, dt.day, 23, 59, 59⟩ := by
  unfold dtToSec
  rw [h0, h1, h2]
  dsimp only
  ring

/-! ## Claim theorems about the time utilities -/

/-- C3: every window returned by `ValidateAndParseTimeRange` (relative or
absolute path) satisfies `start ≤ end` and `end - start ≤ 24` hours; and
for absolute input, once both strings parse, an end earlier than the
start fails with the invalid-range error and a span beyond 24 hours
fails with the too-large error, the validation being applied to the
(possibly widened) parsed instants. -/
theorem validateAndParseTimeRange_bounds :
    (∀ now lastN startStr endStr a b,
        ValidateAndParseTimeRange now lastN startStr endStr = .ok (a, b) →
        a ≤ b ∧ b - a ≤ 86400) ∧
    (∀ startStr endStr st et,
        parseLayouts startStr = some st → parseLayouts endStr = some et →
        (widenEnd endStr et - dtToSec st < 0 →
          CustomTimeRange startStr endStr = .error "end time cannot be before start time") ∧
        (widenEnd endStr et - dtToSec st > 24 * 3600 →
          CustomTimeRange startStr endStr = .error "time range cannot exceed 24 hours")) := by
  constructor
  · intro now lastN startStr endStr a b h
    unfold ValidateAndParseTimeRange at h
    split at h
    · split at h
      · exact absurd h (by simp)
      · exact relative_bounds now lastN a b h
    · split at h
      · exact absurd h (by simp)
      · split at h
        · exact absurd h (by simp)
        · exact custom_bounds startStr endStr a b h
  · intro startStr endStr st et hs he
    constructor
    · intro hlt
      unfold CustomTimeRange
      rw [hs, he]
      simp only
      rw [if_pos hlt]
    · intro hgt
      unfold CustomTimeRange
      rw [hs, he]
      simp only
      rw [if_neg (by omega), if_pos hgt]

/-- Witness for C3 at concrete inputs: a relative window satisfying the
bounds, and an absolute pair whose widened end precedes its start
producing the invalid-range error. -/
theorem validateAndParseTimeRange_bounds_witness :
    ((100000 - 7200 : Int) ≤ 100000 ∧ (100000 : Int) - (100000 - 7200) ≤ 86400) ∧
    CustomTimeRange "2024-11-20 10:00:00" "2024-11-19" =
      .error "end time cannot be before start time" := by
  refine ⟨validateAndParseTimeRange_bounds.1 100000 "2h" "" "" (100000 - 7200) 100000 rfl, ?_⟩
  exact (validateAndParseTimeRange_bounds.2 "2024-11-20 10:00:00" "2024-11-19"
      ⟨2024, 11, 20, 10, 0, 0⟩ ⟨2024, 11, 19, 0, 0, 0⟩ rfl rfl).1 (by decide)

/-- C5: a relative spec string resolves successfully exactly when it is a
nonempty digit string followed by `m` (value 1..1440) or `h` (value
1..24); on success the window is `[now - duration, now)`, so the width
is exactly the requested duration. -/
theorem relativeTimeRange_resolves_iff (now : Int) (s : String) (a b : Int) :
    RelativeTimeRange now s = .ok (a, b) ↔
      b = now ∧ ∃ ds u, s.data = ds ++ [u] ∧ ds ≠ [] ∧ ds.all Char.isDigit ∧
        ((u = 'm' ∧ 1 ≤ natOfDigits ds ∧ natOfDigits ds ≤ 1440 ∧
            a = now - natOfDigits ds * 60) ∨
         (u = 'h' ∧ 1 ≤ natOfDigits ds ∧ natOfDigits ds ≤ 24 ∧
            a = now - natOfDigits ds * 3600)) := by
  constructor
  · intro h
    unfold RelativeTimeRange at h
    cases hr : regexNumUnit s with
    | none => rw [hr] at h; exact absurd h (by simp)
    | some du =>
      obtain ⟨ds, u⟩ := du
      rw [hr] at h
      dsimp only at h
      obtain ⟨hdata, hmh, hne, hdig⟩ := (regexNumUnit_eq_some s ds u).mp hr
      by_cases hm : (u == 'm') = true
      · rw [if_pos hm] at h
        split at h
        · exact absurd h (by simp)
        · rename_i hrange
          push_neg at hrange
          simp only [Except.ok.injEq, Prod.mk.injEq] at h
          refine ⟨h.2.symm, ds, u, hdata, hne, hdig, Or.inl ?_⟩
          exact ⟨by simpa using hm, by omega, hrange.2, h.1.symm⟩
      · rw [if_neg hm] at h
        split at h
        · exact absurd h (by simp)
        · rename_i hrange
          push_neg at hrange
          simp only [Except.ok.injEq, Prod.mk.injEq] at h
          have hh : u = 'h' := by
            rcases hmh with h1 | h1
            · exact absurd (by simp [h1]) hm
            · exact h1
          refine ⟨h.2.symm, ds, u, hdata, hne, hdig, Or.inr ?_⟩
          exact ⟨hh, by omega, hrange.2, h.1.symm⟩
  · rintro ⟨hb, ds, u, hdata, hne, hdig, hcase⟩
    have hmh : u = 'm' ∨ u = 'h' := by
      rcases hcase with ⟨h1, _⟩ | ⟨h1, _⟩
      · exact Or.inl h1
      · exact Or.inr h1
    have hr : regexNumUnit s = some (ds, u) :=
      (regexNumUnit_eq_some s ds u).mpr ⟨hdata, hmh, hne, hdig⟩
    unfold RelativeTimeRange
    rw [hr]
    dsimp only
    rcases hcase with ⟨h1, h2, h3, h4⟩ | ⟨h1, h2, h3, h4⟩
    · subst h1
      rw [if_pos (by simp)]
      rw [if_neg (by omega)]
      rw [h4, hb]
    · subst h1
      rw [if_neg (by simp)]
      rw [if_neg (by omega)]
      rw [h4, hb]

/-- Witness for C5: the spec `30m` resolves to the half-hour window
ending at `now`. -/
theorem relativeTimeRange_resolves_iff_witness :
    RelativeTimeRange 5000 "30m" = .ok (5000 - 1800, 5000) := by
  exact (relativeTimeRange_resolves_iff 5000 "30m" (5000 - 1800) 5000).mpr
    ⟨rfl, ['3', '0'], 'm', rfl, by decide, by decide,
      Or.inl ⟨rfl, by decide, by decide, by decide⟩⟩

/-- C6: when the end string parses under the date-only layout, the end
instant that `CustomTimeRange` validates and returns is 23:59:59 of
that calendar day (the widening happens before validation); a date-only
start parses to midnight of its day. -/
theorem customTimeRange_date_only_widening (startStr endStr : String) (dt : DateTime)
    (hend : parseDate endStr = some dt) :
    (∀ st, parseLayouts startStr = some st →
      CustomTimeRange startStr endStr =
        (if dtToSec ⟨dt.year, dt.month, dt.day, 23, 59, 59⟩ - dtToSec st < 0 then
          .error "end time cannot be before start time"
        else if 24 * 3600 < dtToSec ⟨dt.year, dt.month, dt.day, 23, 59, 59⟩ - dtToSec st then
          .error "time range cannot exceed 24 hours"
        else .ok (dtToSec st, dtToSec ⟨dt.year, dt.month, dt.day, 23, 59, 59⟩))) ∧
    (∀ dt2, parseDate startStr = some dt2 →
      parseLayouts startStr = some dt2 ∧ dt2.hour = 0 ∧ dt2.minute = 0 ∧ dt2.second = 0) := by
  have hsh := parseDate_shape endStr dt hend
  have hwide : widenEnd endStr dt = dtToSec ⟨dt.year, dt.month, dt.day, 23, 59, 59⟩ := by
    unfold widenEnd
    rw [parseDate_noColon endStr dt hend]
    rw [if_neg (by simp)]
    exact dtToSec_zero_hms dt hsh.2.1 hsh.2.2.1 hsh.2.2.2.1
  constructor
  · intro st hst
    unfold CustomTimeRange
    rw [hst, parseDate_layouts endStr dt hend]
    dsimp only
    rw [hwide]
  · intro dt2 hstart
    have hsh2 := parseDate_shape startStr dt2 hstart
    exact ⟨parseDate_layouts startStr dt2 hstart, hsh2.2.1, hsh2.2.2.1, hsh2.2.2.2.1⟩

/-- Witness for C6: the absolute range `2024-11-20 10:00:00` to
date-only `2024-11-20` succeeds with the end widened to 23:59:59. -/
theorem customTimeRange_date_only_widening_witness :
    CustomTimeRange "2024-11-20 10:00:00" "2024-11-20" =
      .ok (dtToSec ⟨2024, 11, 20, 10, 0, 0⟩, dtToSec ⟨2024, 11, 20, 23, 59, 59⟩) := by
  have h := (customTimeRange_date_only_widening "2024-11-20 10:00:00" "2024-11-20"
      ⟨2024, 11, 20, 0, 0, 0⟩ rfl).1 ⟨2024, 11, 20, 10, 0, 0⟩ rfl
  rw [h]
  rw [if_neg (by decide), if_neg (by decide)]

/-! ## Helper lemmas for the filter predicate -/

theorem matchesFilter_empty_passthrough (e : Event) (b1 b2 : Bool) :
    matchesFilter e ⟨"", "", "", "", b1, b2⟩ = errSuccessCheck e ⟨"", "", "", "", b1, b2⟩ := rfl

theorem errSuccessCheck_errorsOnly (e : Event) :
    errSuccessCheck e ⟨"", "", "", "", true, false⟩ = true ↔
      (∀ raw doc, e.cloudTrailEvent = some raw → unmarshalMap raw = some doc →
        (getString doc "errorCode").isSome = true) := by
  unfold errSuccessCheck
  cases hce : e.cloudTrailEvent with
  | none => simp
  | some raw =>
    cases hum : unmarshalMap raw with
    | none =>
      simp only [hum]
      constructor
      · intro _ r d hr hd
        injection hr with hrr
        subst hrr
        rw [hum] at hd
        exact absurd hd (by simp)
      · intro _
        simp
    | some doc =>
      simp only [hum]
      cases hec : getString doc "errorCode" with
      | none =>
        constructor
        · intro h
          simp at h
        · intro hall
          exfalso
          have := hall raw doc rfl hum
          rw [hec] at this
          simp at this
      | some s =>
        constructor
        · intro _ r d hr hd
          injection hr with hrr
          subst hrr
          rw [hum] at hd
          injection hd with hdd
          subst hdd
          rw [hec]
          rfl
        · intro _
          simp

theorem errSuccessCheck_successOnly (e : Event) :
    errSuccessCheck e ⟨"", "", "", "", false, true⟩ = true ↔
      (∀ raw doc s, e.cloudTrailEvent = some raw → unmarshalMap raw = some doc →
        getString doc "errorCode" = some s → s = "") := by
  unfold errSuccessCheck
  cases hce : e.cloudTrailEvent with
  | none => simp
  | some raw =>
    cases hum : unmarshalMap raw with
    | none =>
      simp only [hum]
      constructor
      · intro _ r d s2 hr hd
        injection hr with hrr
        subst hrr
        rw [hum] at hd
        exact absurd hd (by simp)
      · intro _
        simp
    | some doc =>
      simp only [hum]
      cases hec : getString doc "errorCode" with
      | none =>
        constructor
        · intro _ r d s2 hr hd hgs
          injection hr with hrr
          subst hrr
          rw [hum] at hd
          injection hd with hdd
          subst hdd
          rw [hec] at hgs
          exact absurd hgs (by simp)
        · intro _
          simp
      | some s =>
        by_cases hs : s = ""
        · subst hs
          constructor
          · intro _ r d s2 hr hd hgs
            injection hr with hrr
            subst hrr
            rw [hum] at hd
            injection hd with hdd
            subst hdd
            rw [hec] at hgs
            injection hgs with hss
            exact hss.symm
          · intro _
            simp
        · constructor
          · intro h
            simp [hs] at h
          · intro hall
            exfalso
            exact hs (hall raw doc s rfl hum hec)

theorem errSuccessCheck_exhaustive (e : Event) :
    errSuccessCheck e ⟨"", "", "", "", true, false⟩ = true ∨
    errSuccessCheck e ⟨"", "", "", "", false, true⟩ = true := by
  unfold errSuccessCheck
  cases hce : e.cloudTrailEvent with
  | none => simp
  | some raw =>
    cases hum : unmarshalMap raw with
    | none => simp [hum]
    | some doc =>
      cases hec : getString doc "errorCode" with
      | none => simp [hum, hec]
      | some s => simp [hum, hec]

theorem errSuccess_clear_err (e : Event) (g : FilterOptions)
    (h : errSuccessCheck e g = true) :
    errSuccessCheck e {g with ErrorsOnly := false} = true := by
  unfold errSuccessCheck at h ⊢
  dsimp only at h ⊢
  by_cases hso : g.SuccessOnly
  · rw [hso] at h ⊢
    simp only [Bool.or_true, if_true] at h ⊢
    cases hce : e.cloudTrailEvent with
    | none => rfl
    | some raw =>
      rw [hce] at h
      dsimp only at h ⊢
      cases hum : unmarshalMap raw with
      | none => rfl
      | some doc =>
        dsimp only
        split at h
        · rename_i heq
          rw [hum] at heq
          exact absurd heq (by simp)
        · rename_i reqP h1
          rw [hum] at h1
          injection h1 with h1e
          subst h1e
          split at h
          · exact absurd h (by simp)
          · rename_i h2
            rw [if_neg (by simp)]
            exact h
  · simp only [Bool.not_eq_true] at hso
    rw [hso] at h ⊢
    simp only [Bool.or_false, Bool.false_or] at h ⊢
    simp

theorem errSuccess_clear_succ (e : Event) (g : FilterOptions)
    (h : errSuccessCheck e g = true) :
    errSuccessCheck e {g with SuccessOnly := false} = true := by
  unfold errSuccessCheck at h ⊢
  dsimp only at h ⊢
  by_cases heo : g.ErrorsOnly
  · rw [heo] at h ⊢
    simp only [Bool.true_or, if_true] at h ⊢
    cases hce : e.cloudTrailEvent with
    | none => rfl
    | some raw =>
      rw [hce] at h
      dsimp only at h ⊢
      cases hum : unmarshalMap raw with
      | none => rfl
      | some doc =>
        dsimp only
        split at h
        · rename_i heq
          rw [hum] at heq
          exact absurd heq (by simp)
        · rename_i reqP h1
          rw [hum] at h1
          injection h1 with h1e
          subst h1e
          split at h
          · exact absurd h (by simp)
          · rename_i h2
            rw [if_neg h2, if_neg (by simp)]
  · simp only [Bool.not_eq_true] at heo
    rw [heo] at h ⊢
    simp only [Bool.false_or] at h ⊢
    simp

/-! ## Claim theorems about the filter predicate -/

/-- C1 counterexample: an event carrying no raw detail JSON at all
matches under `errorsOnly`, where the claim requires no match. -/
theorem matchesFilter_errorsOnly_no_detail_cx :
    matchesFilter ⟨some "Decrypt", 0, some "kms.amazonaws.com", some "admin", none, none⟩
      ⟨"", "", "", "", true, false⟩ = true ∧
    (⟨some "Decrypt", 0, some "kms.amazonaws.com", some "admin", none, none⟩ : Event).cloudTrailEvent
      = none := ⟨rfl, rfl⟩

/-- C1 (amended): with `errorsOnly` set, an event whose detail JSON is
present and parses to a document without a string `errorCode` never
matches; but when the event has no raw detail JSON, or it fails to
parse, the check is skipped and the event is not rejected. -/
theorem matchesFilter_errorsOnly_detail :
    (∀ (e : Event) (raw : String) (doc : List (String × Json)) (f : FilterOptions),
      e.cloudTrailEvent = some raw → unmarshalMap raw = some doc →
      getString doc "errorCode" = none → f.ErrorsOnly = true →
      matchesFilter e f = false) ∧
    (∀ e : Event, e.cloudTrailEvent = none →
      matchesFilter e ⟨"", "", "", "", true, false⟩ = true) ∧
    (∀ (e : Event) (raw : String), e.cloudTrailEvent = some raw → unmarshalMap raw = none →
      matchesFilter e ⟨"", "", "", "", true, false⟩ = true) := by
  refine ⟨?_, ?_, ?_⟩
  · intro e raw doc f hce hum hec hf
    have hesc : errSuccessCheck e f = false := by
      unfold errSuccessCheck
      rw [hf]
      simp only [Bool.true_or, if_true]
      rw [hce]
      dsimp only
      cases hum2 : unmarshalMap raw with
      | none =>
        rw [hum] at hum2
        exact absurd hum2 (by simp)
      | some d2 =>
        rw [hum] at hum2
        injection hum2 with hdd
        subst hdd
        dsimp only
        rw [hec]
        simp
    unfold matchesFilter
    rw [hesc]
    simp
  · intro e hce
    rw [matchesFilter_empty_passthrough]
    unfold errSuccessCheck
    rw [hce]
    simp
  · intro e raw hce hum
    rw [matchesFilter_empty_passthrough]
    unfold errSuccessCheck
    rw [hce]
    dsimp only
    simp [hum]

/-- Witness for C1 (amended): a parsed detail document without an
`errorCode` is rejected under `errorsOnly`; an event without detail
JSON is accepted. -/
theorem matchesFilter_errorsOnly_detail_witness :
    matchesFilter
      ⟨some "Decrypt", 0, some "kms.amazonaws.com", some "admin", none,
        some "\x7b\"eventVersion\": \"1.08\"\x7d"⟩
      ⟨"", "", "", "", true, false⟩ = false ∧
    matchesFilter
      ⟨some "GenerateDataKey", 5, some "kms.amazonaws.com", some "bob", none, none⟩
      ⟨"", "", "", "", true, false⟩ = true :=
  ⟨matchesFilter_errorsOnly_detail.1
      ⟨some "Decrypt", 0, some "kms.amazonaws.com", some "admin", none,
        some "\x7b\"eventVersion\": \"1.08\"\x7d"⟩
      "\x7b\"eventVersion\": \"1.08\"\x7d" [("eventVersion", Json.str "1.08")]
      ⟨"", "", "", "", true, false⟩ rfl rfl rfl rfl,
   matchesFilter_errorsOnly_detail.2.1
      ⟨some "GenerateDataKey", 5, some "kms.amazonaws.com", some "bob", none, none⟩ rfl⟩

/-- C2 counterexample: an event whose detail document carries an
empty-string `errorCode` matches under `errorsOnly` and under
`successOnly` at once, so the two classes are not disjoint, and
`errorsOnly` matches an event without a non-empty error code. -/
theorem matchesFilter_error_success_overlap_cx :
    matchesFilter
      ⟨some "Decrypt", 0, some "kms.amazonaws.com", some "admin", none,
        some "\x7b\"errorCode\": \"\"\x7d"⟩
      ⟨"", "", "", "", true, false⟩ = true ∧
    matchesFilter
      ⟨some "Decrypt", 0, some "kms.amazonaws.com", some "admin", none,
        some "\x7b\"errorCode\": \"\"\x7d"⟩
      ⟨"", "", "", "", false, true⟩ = true ∧
    unmarshalMap "\x7b\"errorCode\": \"\"\x7d" = some [("errorCode", Json.str "")] :=
  ⟨rfl, rfl, rfl⟩

/-- C2 (amended): with all other criteria unset, `errorsOnly` matches
exactly the events whose detail document (when present and parseable)
has a string `errorCode` — possibly empty; `successOnly` matches
exactly those without a non-empty string `errorCode`; the two classes
are exhaustive, though not disjoint. -/
theorem matchesFilter_error_success_classes (e : Event) :
    (matchesFilter e ⟨"", "", "", "", true, false⟩ = true ↔
      (∀ raw doc, e.cloudTrailEvent = some raw → unmarshalMap raw = some doc →
        (getString doc "errorCode").isSome = true)) ∧
    (matchesFilter e ⟨"", "", "", "", false, true⟩ = true ↔
      (∀ raw doc s, e.cloudTrailEvent = some raw → unmarshalMap raw = some doc →
        getString doc "errorCode" = some s → s = "")) ∧
    (matchesFilter e ⟨"", "", "", "", true, false⟩ = true ∨
      matchesFilter e ⟨"", "", "", "", false, true⟩ = true) := by
  refine ⟨?_, ?_, ?_⟩
  · rw [matchesFilter_empty_passthrough]
    exact errSuccessCheck_errorsOnly e
  · rw [matchesFilter_empty_passthrough]
    exact errSuccessCheck_successOnly e
  · rw [matchesFilter_empty_passthrough, matchesFilter_empty_passthrough]
    exact errSuccessCheck_exhaustive e

/-- Witness for C2 (amended): an event with `errorCode`
`AccessDenied` falls in the `errorsOnly` class. -/
theorem matchesFilter_error_success_classes_witness :
    matchesFilter
      ⟨some "Decrypt", 0, some "kms.amazonaws.com", some "admin", none,
        some "\x7b\"errorCode\": \"AccessDenied\"\x7d"⟩
      ⟨"", "", "", "", true, false⟩ = true := by
  refine (matchesFilter_error_success_classes
      ⟨some "Decrypt", 0, some "kms.amazonaws.com", some "admin", none,
        some "\x7b\"errorCode\": \"AccessDenied\"\x7d"⟩).1.mpr ?_
  intro raw doc hr hd
  injection hr with hrr
  subst hrr
  have : unmarshalMap "\x7b\"errorCode\": \"AccessDenied\"\x7d" =
      some [("errorCode", Json.str "AccessDenied")] := rfl
  rw [this] at hd
  injection hd with hdd
  subst hdd
  rfl

/-- C9: enabling one additional criterion never turns a non-matching
event into a matching one: a match under the extended criteria implies
a match under the original criteria. -/
theorem matchesFilter_monotone (e : Event) (f g : FilterOptions)
    (hfg : oneMoreCriterion f g) (hg : matchesFilter e g = true) :
    matchesFilter e f = true := by
  have hg5 := hg
  simp only [matchesFilter, Bool.and_eq_true] at hg5
  obtain ⟨⟨⟨⟨h1, h2⟩, h3⟩, h4⟩, h5⟩ := hg5
  rcases hfg with hf | hf | hf | hf | hf | hf <;> subst hf <;>
    simp only [matchesFilter, Bool.and_eq_true]
  · exact ⟨⟨⟨⟨by simp, h2⟩, h3⟩, h4⟩, h5⟩
  · exact ⟨⟨⟨⟨h1, by simp⟩, h3⟩, h4⟩, h5⟩
  · exact ⟨⟨⟨⟨h1, h2⟩, by simp⟩, h4⟩, h5⟩
  · exact ⟨⟨⟨⟨h1, h2⟩, h3⟩, by simp⟩, h5⟩
  · exact ⟨⟨⟨⟨h1, h2⟩, h3⟩, h4⟩, errSuccess_clear_err e g h5⟩
  · exact ⟨⟨⟨⟨h1, h2⟩, h3⟩, h4⟩, errSuccess_clear_succ e g h5⟩

/-- Witness for C9: an event matching the criteria extended with an
event-name filter also matches the original empty criteria. -/
theorem matchesFilter_monotone_witness :
    matchesFilter
      ⟨some "Decrypt", 0, some "kms.amazonaws.com", some "admin", none,
        some "\x7b\"errorCode\": \"AccessDenied\"\x7d"⟩
      ⟨"", "", "", "", false, false⟩ = true :=
  matchesFilter_monotone
    ⟨some "Decrypt", 0, some "kms.amazonaws.com", some "admin", none,
      some "\x7b\"errorCode\": \"AccessDenied\"\x7d"⟩
    ⟨"", "", "", "", false, false⟩
    ⟨"", "Decrypt", "", "", false, false⟩
    (Or.inr (Or.inl rfl)) (by rfl)

/-- C10: when every string criterion is empty and both flags are off,
`matchesFilter` accepts every event. -/
theorem matchesFilter_unfiltered (e : Event) :
    matchesFilter e ⟨"", "", "", "", false, false⟩ = true := rfl

/-! ## Helper lemmas for the JSON round trip -/
theorem skipWs_cons (c : Char) (cs : List Char) :
    skipWs (c :: cs) = if isWs c then skipWs cs else c :: cs := rfl

theorem skipWs_not_ws (c : Char) (cs : List Char) (h : isWs c = false) :
    skipWs (c :: cs) = c :: cs := by
  rw [skipWs_cons, h]
  simp

theorem skipWs_ws_append (ws t : List Char) (h : ws.all isWs = true) :
    skipWs (ws ++ t) = skipWs t := by
  induction ws with
  | nil => rfl
  | cons c cs ih =>
    simp only [List.all_cons, Bool.and_eq_true] at h
    simp only [List.cons_append]
    rw [skipWs_cons, h.1]
    simp only [if_true]
    exact ih h.2

theorem indentChars_all_ws (n : Nat) : (indentChars n).all isWs = true := by
  unfold indentChars
  simp only [List.all_eq_true]
  intro c hc
  have := List.eq_of_mem_replicate hc
  subst this
  decide

theorem digitVal_ofNat (m : Nat) (h : m < 10) :
    digitVal (Char.ofNat (48 + m)) = m := by
  interval_cases m <;> decide

theorem isDigit_ofNat (m : Nat) (h : m < 10) :
    (Char.ofNat (48 + m)).isDigit = true := by
  interval_cases m <;> decide

theorem natOfDigits_append_one (a : List Char) (d : Char) :
    natOfDigits (a ++ [d]) = natOfDigits a * 10 + digitVal d := by
  unfold natOfDigits
  rw [List.foldl_append]
  rfl

theorem renderNatAux_spec (fuel : Nat) :
    ∀ n, n < fuel →
      renderNatAux fuel n ≠ [] ∧ (∀ c ∈ renderNatAux fuel n, c.isDigit = true) ∧
      natOfDigits (renderNatAux fuel n) = n := by
  induction fuel with
  | zero => intro n h; omega
  | succ f ih =>
    intro n h
    by_cases hn : n < 10
    · unfold renderNatAux
      rw [if_pos hn]
      refine ⟨by simp, ?_, ?_⟩
      · intro c hc
        simp only [List.mem_singleton] at hc
        subst hc
        exact isDigit_ofNat n hn
      · show natOfDigits ([] ++ [Char.ofNat (48 + n)]) = n
        rw [natOfDigits_append_one]
        rw [digitVal_ofNat n hn]
        simp [natOfDigits]
    · have hrec : n / 10 < f := by omega
      unfold renderNatAux
      rw [if_neg hn]
      obtain ⟨hne, hdig, hval⟩ := ih (n / 10) hrec
      refine ⟨by simp, ?_, ?_⟩
      · intro c hc
        rcases List.mem_append.mp hc with hm | hm
        · exact hdig c hm
        · simp only [List.mem_singleton] at hm
          subst hm
          exact isDigit_ofNat (n % 10) (by omega)
      · rw [natOfDigits_append_one, hval, digitVal_ofNat (n % 10) (by omega)]
        omega

theorem renderNat_spec (n : Nat) :
    renderNat n ≠ [] ∧ (∀ c ∈ renderNat n, c.isDigit = true) ∧
      natOfDigits (renderNat n) = n :=
  renderNatAux_spec (n + 1) n (by omega)

theorem readDigits_digits_append (ds k : List Char) (hds : ∀ c ∈ ds, c.isDigit = true)
    (hk : ∀ c cs, k = c :: cs → c.isDigit = false) :
    readDigits (ds ++ k) = (ds, k) := by
  induction ds with
  | nil =>
    simp only [List.nil_append]
    cases k with
    | nil => rfl
    | cons c cs =>
      unfold readDigits
      rw [hk c cs rfl]
      simp
  | cons d rest ih =>
    simp only [List.cons_append]
    unfold readDigits
    rw [hds d (by simp)]
    simp only [if_true]
    rw [ih (fun c hc => hds c (by simp [hc]))]



theorem char_ofNat_toNat (c : Char) : Char.ofNat c.toNat = c := by
  have hv : c.toNat.isValidChar := c.valid
  unfold Char.ofNat
  rw [dif_pos hv]
  apply Char.ext
  apply UInt32.eq_of_toBitVec_eq
  apply BitVec.eq_of_toNat_eq
  simp [Char.ofNatAux, Char.toNat, UInt32.toNat]

theorem hexVal_hexDigChar (m : Nat) (h : m < 16) : hexVal (hexDigChar m) = some m := by
  interval_cases m <;> decide

theorem psb_quote (tail : List Char) : parseStringBody ('"' :: tail) = some ([], tail) := by
  conv_lhs => unfold parseStringBody
  rw [if_pos (by decide)]

theorem psb_esc_quote (tail : List Char) :
    parseStringBody ('\\' :: '"' :: tail) = Option.map (consFst '"') (parseStringBody tail) := by
  conv_lhs => unfold parseStringBody
  rw [if_neg (by decide), if_pos (by decide)]
  dsimp only
  rw [if_pos (by decide)]

theorem psb_esc_backslash (tail : List Char) :
    parseStringBody ('\\' :: '\\' :: tail) = Option.map (consFst '\\') (parseStringBody tail) := by
  conv_lhs => unfold parseStringBody
  rw [if_neg (by decide), if_pos (by decide)]
  dsimp only
  rw [if_neg (by decide), if_pos (by decide)]

theorem psb_esc_n (tail : List Char) :
    parseStringBody ('\\' :: 'n' :: tail) = Option.map (consFst '\n') (parseStringBody tail) := by
  conv_lhs => unfold parseStringBody
  rw [if_neg (by decide), if_pos (by decide)]
  dsimp only
  rw [if_neg (by decide), if_neg (by decide), if_neg (by decide), if_pos (by decide)]

theorem psb_esc_t (tail : List Char) :
    parseStringBody ('\\' :: 't' :: tail) = Option.map (consFst '\t') (parseStringBody tail) := by
  conv_lhs => unfold parseStringBody
  rw [if_neg (by decide), if_pos (by decide)]
  dsimp only
  rw [if_neg (by decide), if_neg (by decide), if_neg (by decide), if_neg (by decide),
    if_pos (by decide)]

theorem psb_esc_r (tail : List Char) :
    parseStringBody ('\\' :: 'r' :: tail) = Option.map (consFst '\r') (parseStringBody tail) := by
  conv_lhs => unfold parseStringBody
  rw [if_neg (by decide), if_pos (by decide)]
  dsimp only
  rw [if_neg (by decide), if_neg (by decide), if_neg (by decide), if_neg (by decide),
    if_neg (by decide), if_pos (by decide)]

theorem psb_esc_u (h1c h2c h3c h4c : Char) (v1 v2 v3 v4 : Nat) (tail : List Char)
    (hh1 : hexVal h1c = some v1) (hh2 : hexVal h2c = some v2)
    (hh3 : hexVal h3c = some v3) (hh4 : hexVal h4c = some v4) :
    parseStringBody ('\\' :: 'u' :: h1c :: h2c :: h3c :: h4c :: tail) =
      Option.map (consFst (Char.ofNat (((v1 * 16 + v2) * 16 + v3) * 16 + v4)))
        (parseStringBody tail) := by
  conv_lhs => unfold parseStringBody
  rw [if_neg (by decide), if_pos (by decide)]
  dsimp only
  rw [if_neg (by decide), if_neg (by decide), if_neg (by decide), if_neg (by decide),
    if_neg (by decide), if_neg (by decide), if_neg (by decide), if_neg (by decide),
    if_pos (by decide)]
  rw [hh1, hh2, hh3, hh4]

theorem psb_plain (c : Char) (tail : List Char) (h1 : (c == '"') = false)
    (h2 : (c == '\\') = false) (h3 : decide (c.toNat < 32) = false) :
    parseStringBody (c :: tail) = Option.map (consFst c) (parseStringBody tail) := by
  conv_lhs => unfold parseStringBody
  rw [if_neg (by simp [h1]), if_neg (by simp [h2]), if_neg (by simp at h3; omega)]


theorem parseStringBody_escape (rest : List Char) :
    ∀ s : List Char, parseStringBody (escapeChars s ++ '"' :: rest) = some (s, rest) := by
  intro s
  induction s with
  | nil => exact psb_quote rest
  | cons c cs ih =>
    rw [show escapeChars (c :: cs) = escChar c ++ escapeChars cs from rfl, List.append_assoc]
    unfold escChar
    by_cases h1 : (c == '"') = true
    · rw [if_pos h1]
      rw [show (['\\', '"'] : List Char) ++ (escapeChars cs ++ '"' :: rest)
          = '\\' :: '"' :: (escapeChars cs ++ '"' :: rest) from rfl]
      rw [psb_esc_quote, ih, eq_of_beq h1]
      rfl
    · rw [if_neg h1]
      by_cases h2 : (c == '\\') = true
      · rw [if_pos h2]
        rw [show (['\\', '\\'] : List Char) ++ (escapeChars cs ++ '"' :: rest)
            = '\\' :: '\\' :: (escapeChars cs ++ '"' :: rest) from rfl]
        rw [psb_esc_backslash, ih, eq_of_beq h2]
        rfl
      · rw [if_neg h2]
        by_cases h3 : (c == '\n') = true
        · rw [if_pos h3]
          rw [show (['\\', 'n'] : List Char) ++ (escapeChars cs ++ '"' :: rest)
              = '\\' :: 'n' :: (escapeChars cs ++ '"' :: rest) from rfl]
          rw [psb_esc_n, ih, eq_of_beq h3]
          rfl
        · rw [if_neg h3]
          by_cases h4 : (c == '\r') = true
          · rw [if_pos h4]
            rw [show (['\\', 'r'] : List Char) ++ (escapeChars cs ++ '"' :: rest)
                = '\\' :: 'r' :: (escapeChars cs ++ '"' :: rest) from rfl]
            rw [psb_esc_r, ih, eq_of_beq h4]
            rfl
          · rw [if_neg h4]
            by_cases h5 : (c == '\t') = true
            · rw [if_pos h5]
              rw [show (['\\', 't'] : List Char) ++ (escapeChars cs ++ '"' :: rest)
                  = '\\' :: 't' :: (escapeChars cs ++ '"' :: rest) from rfl]
              rw [psb_esc_t, ih, eq_of_beq h5]
              rfl
            · rw [if_neg h5]
              by_cases h6 : (c == '<') = true
              · rw [if_pos h6]
                rw [show (['\\', 'u', '0', '0', '3', 'c'] : List Char)
                    ++ (escapeChars cs ++ '"' :: rest)
                    = '\\' :: 'u' :: '0' :: '0' :: '3' :: 'c'
                      :: (escapeChars cs ++ '"' :: rest) from rfl]
                rw [psb_esc_u '0' '0' '3' 'c' 0 0 3 12 _ (by decide) (by decide)
                  (by decide) (by decide), ih, eq_of_beq h6]
                rw [show Char.ofNat (((0 * 16 + 0) * 16 + 3) * 16 + 12) = '<' from by decide]
                rfl
              · rw [if_neg h6]
                by_cases h7 : (c == '>') = true
                · rw [if_pos h7]
                  rw [show (['\\', 'u', '0', '0', '3', 'e'] : List Char)
                      ++ (escapeChars cs ++ '"' :: rest)
                      = '\\' :: 'u' :: '0' :: '0' :: '3' :: 'e'
                        :: (escapeChars cs ++ '"' :: rest) from rfl]
                  rw [psb_esc_u '0' '0' '3' 'e' 0 0 3 14 _ (by decide) (by decide)
                    (by decide) (by decide), ih, eq_of_beq h7]
                  rw [show Char.ofNat (((0 * 16 + 0) * 16 + 3) * 16 + 14) = '>' from by decide]
                  rfl
                · rw [if_neg h7]
                  by_cases h8 : (c == '&') = true
                  · rw [if_pos h8]
                    rw [show (['\\', 'u', '0', '0', '2', '6'] : List Char)
                        ++ (escapeChars cs ++ '"' :: rest)
                        = '\\' :: 'u' :: '0' :: '0' :: '2' :: '6'
                          :: (escapeChars cs ++ '"' :: rest) from rfl]
                    rw [psb_esc_u '0' '0' '2' '6' 0 0 2 6 _ (by decide) (by decide)
                      (by decide) (by decide), ih, eq_of_beq h8]
                    rw [show Char.ofNat (((0 * 16 + 0) * 16 + 2) * 16 + 6) = '&' from by decide]
                    rfl
                  · rw [if_neg h8]
                    by_cases h9 : c.toNat < 32
                    · rw [if_pos h9]
                      rw [show ('\\' :: 'u' :: '0' :: '0' :: hexDigChar (c.toNat / 16)
                            :: hexDigChar (c.toNat % 16) :: ([] : List Char))
                          ++ (escapeChars cs ++ '"' :: rest)
                          = '\\' :: 'u' :: '0' :: '0' :: hexDigChar (c.toNat / 16)
                            :: hexDigChar (c.toNat % 16)
                            :: (escapeChars cs ++ '"' :: rest) from rfl]
                      rw [psb_esc_u '0' '0' (hexDigChar (c.toNat / 16))
                        (hexDigChar (c.toNat % 16)) 0 0 (c.toNat / 16) (c.toNat % 16) _
                        (by decide) (by decide) (hexVal_hexDigChar _ (by omega))
                        (hexVal_hexDigChar _ (by omega)), ih]
                      rw [show ((0 * 16 + 0) * 16 + c.toNat / 16) * 16 + c.toNat % 16
                          = c.toNat from by omega]
                      rw [char_ofNat_toNat]
                      rfl
                    · rw [if_neg h9]
                      by_cases h10 : c.toNat = 8232
                      · rw [if_pos h10]
                        rw [show (['\\', 'u', '2', '0', '2', '8'] : List Char)
                            ++ (escapeChars cs ++ '"' :: rest)
                            = '\\' :: 'u' :: '2' :: '0' :: '2' :: '8'
                              :: (escapeChars cs ++ '"' :: rest) from rfl]
                        rw [psb_esc_u '2' '0' '2' '8' 2 0 2 8 _ (by decide) (by decide)
                          (by decide) (by decide), ih]
                        rw [show ((2 * 16 + 0) * 16 + 2) * 16 + 8 = (8232 : Nat) from by norm_num]
                        rw [← h10, char_ofNat_toNat]
                        rfl
                      · rw [if_neg h10]
                        by_cases h11 : c.toNat = 8233
                        · rw [if_pos h11]
                          rw [show (['\\', 'u', '2', '0', '2', '9'] : List Char)
                              ++ (escapeChars cs ++ '"' :: rest)
                              = '\\' :: 'u' :: '2' :: '0' :: '2' :: '9'
                                :: (escapeChars cs ++ '"' :: rest) from rfl]
                          rw [psb_esc_u '2' '0' '2' '9' 2 0 2 9 _ (by decide) (by decide)
                            (by decide) (by decide), ih]
                          rw [show ((2 * 16 + 0) * 16 + 2) * 16 + 9
                              = (8233 : Nat) from by norm_num]
                          rw [← h11, char_ofNat_toNat]
                          rfl
                        · rw [if_neg h11]
                          rw [show ([c] : List Char) ++ (escapeChars cs ++ '"' :: rest)
                              = c :: (escapeChars cs ++ '"' :: rest) from rfl]
                          rw [psb_plain c _ (by simp [h1]) (by simp [h2]) (by simp [h9]), ih]
                          rfl

/-! ## Helper lemmas for the scan loop -/

theorem monitor_error_of_first (f : FilterOptions) (w : Event → Except String Unit) :
    ∀ (pages : List (Except String (List Event))) (count : Nat) (warns : List String) (e0 : String),
      firstPageError pages = some e0 →
      MonitorKMSEvents f w pages count warns = .error ("error looking up events: " ++ e0) := by
  intro pages
  induction pages with
  | nil => intro count warns e0 h; exact absurd h (by simp [firstPageError])
  | cons p rest ih =>
    intro count warns e0 h
    cases p with
    | error e =>
      unfold firstPageError at h
      injection h with he
      subst he
      rfl
    | ok evs =>
      unfold firstPageError at h
      unfold MonitorKMSEvents
      exact ih _ _ e0 h

theorem monitor_ok_of_none (f : FilterOptions) (w : Event → Except String Unit) :
    ∀ (pages : List (Except String (List Event))) (count : Nat) (warns : List String),
      firstPageError pages = none →
      ∃ c ws, MonitorKMSEvents f w pages count warns = .ok (c, ws) := by
  intro pages
  induction pages with
  | nil => intro count warns _; exact ⟨count, warns, rfl⟩
  | cons p rest ih =>
    intro count warns h
    cases p with
    | error e => exact absurd h (by simp [firstPageError])
    | ok evs =>
      unfold firstPageError at h
      unfold MonitorKMSEvents
      exact ih _ _ h

theorem processPage_count_indep (f : FilterOptions) (w w2 : Event → Except String Unit) :
    ∀ evs : List Event, (processPage f w evs).1 = (processPage f w2 evs).1 := by
  intro evs
  induction evs with
  | nil => rfl
  | cons ev rest ih =>
    unfold processPage
    by_cases hm : matchesFilter ev f = true
    · simp only [hm, if_true]
      simp [ih]
    · simp only [Bool.not_eq_true] at hm
      simp only [hm]
      simp [ih]

theorem monitor_runResult_indep (f : FilterOptions) (w w2 : Event → Except String Unit) :
    ∀ (pages : List (Except String (List Event))) (count : Nat) (warns warns2 : List String),
      runResult (MonitorKMSEvents f w pages count warns) =
        runResult (MonitorKMSEvents f w2 pages count warns2) := by
  intro pages
  induction pages with
  | nil => intro count warns warns2; rfl
  | cons p rest ih =>
    intro count warns warns2
    cases p with
    | error e => rfl
    | ok evs =>
      unfold MonitorKMSEvents
      have hc := processPage_count_indep f w w2 evs
      cases hp : processPage f w evs with
      | mk c1 ws1 =>
        cases hp2 : processPage f w2 evs with
        | mk c2 ws2 =>
          have : c1 = c2 := by rw [hp, hp2] at hc; exact hc
          subst this
          exact ih _ _ _

theorem processPage_write_warning (f : FilterOptions) (w : Event → Except String Unit) :
    ∀ (evs : List Event) (ev : Event), ev ∈ evs → matchesFilter ev f = true →
      ∀ msg, w ev = .error msg →
      ("Warning: Failed to write to log file: " ++ msg) ∈ (processPage f w evs).2 := by
  intro evs
  induction evs with
  | nil => intro ev h; exact absurd h (by simp)
  | cons hd rest ih =>
    intro ev hmem hm msg hw
    unfold processPage
    rcases List.mem_cons.mp hmem with heq | htl
    · subst heq
      rw [hm]
      cases hp : processPage f w rest with
      | mk c ws =>
        simp only
        apply List.mem_append.mpr
        left
        unfold eventWarnings
        apply List.mem_append.mpr
        right
        rw [hw]
        simp
    · have hin := ih ev htl hm msg hw
      cases hp : processPage f w rest with
      | mk c ws =>
        rw [hp] at hin
        by_cases hmh : matchesFilter hd f = true
        · rw [hmh]
          simp only [if_true]
          exact List.mem_append.mpr (Or.inr hin)
        · simp only [Bool.not_eq_true] at hmh
          rw [hmh]
          simp only [Bool.false_eq_true, if_false]
          exact hin

theorem monitor_warns_mono (f : FilterOptions) (w : Event → Except String Unit) :
    ∀ (pages : List (Except String (List Event))) (count : Nat) (warns : List String)
      (c : Nat) (ws : List String),
      MonitorKMSEvents f w pages count warns = .ok (c, ws) →
      (∀ s ∈ warns, s ∈ ws) ∧
      (∀ evs, Except.ok evs ∈ pages → ∀ s ∈ (processPage f w evs).2, s ∈ ws) := by
  intro pages
  induction pages with
  | nil =>
    intro count warns c ws h
    unfold MonitorKMSEvents at h
    injection h with hh
    injection hh with h1 h2
    subst h2
    exact ⟨fun s hs => hs, fun evs hmem => absurd hmem (by simp)⟩
  | cons p rest ih =>
    intro count warns c ws h
    cases p with
    | error e =>
      exact absurd h (by unfold MonitorKMSEvents; simp)
    | ok evs0 =>
      unfold MonitorKMSEvents at h
      cases hp : processPage f w evs0 with
      | mk c0 ws0 =>
        rw [hp] at h
        have := ih (count + c0) (warns ++ ws0) c ws h
        refine ⟨fun s hs => this.1 s (List.mem_append.mpr (Or.inl hs)), ?_⟩
        intro evs hmem s hs
        rcases List.mem_cons.mp hmem with heq | htl
        · injection heq with he
          subst he
          rw [hp] at hs
          exact this.1 s (List.mem_append.mpr (Or.inr hs))
        · exact this.2 evs htl s hs

/-! ## Claim theorems about the scan loop and the writer -/

/-- C4: the scan returns an error exactly when a page request fails,
wrapping and propagating the first underlying cause; the returned
result never depends on the sink's per-event outcomes; a failed write
for a matching event is logged as a warning while the scan continues to
a successful result. -/
theorem monitorKMSEvents_contract (f : FilterOptions) (w : Event → Except String Unit)
    (pages : List (Except String (List Event))) :
    (∀ m, MonitorKMSEvents f w pages 0 [] = .error m ↔
      ∃ e0, firstPageError pages = some e0 ∧ m = "error looking up events: " ++ e0) ∧
    (∀ w2, runResult (MonitorKMSEvents f w pages 0 []) =
      runResult (MonitorKMSEvents f w2 pages 0 [])) ∧
    (∀ c ws, MonitorKMSEvents f w pages 0 [] = .ok (c, ws) →
      ∀ evs, Except.ok evs ∈ pages → ∀ ev ∈ evs, matchesFilter ev f = true →
      ∀ msg, w ev = .error msg →
      ("Warning: Failed to write to log file: " ++ msg) ∈ ws) := by
  refine ⟨?_, ?_, ?_⟩
  · intro m
    cases hfe : firstPageError pages with
    | none =>
      constructor
      · intro h
        obtain ⟨c, ws, hok⟩ := monitor_ok_of_none f w pages 0 [] hfe
        rw [hok] at h
        exact absurd h (by simp)
      · rintro ⟨e0, he, _⟩
        exact absurd he (by simp)
    | some e0 =>
      constructor
      · intro h
        have hm := monitor_error_of_first f w pages 0 [] e0 hfe
        rw [hm] at h
        injection h with hh
        exact ⟨e0, rfl, hh.symm⟩
      · rintro ⟨e0b, heb, hmb⟩
        injection heb with he
        subst he
        subst hmb
        exact monitor_error_of_first f w pages 0 [] e0 hfe
  · intro w2
    exact monitor_runResult_indep f w w2 pages 0 [] []
  · intro c ws hok evs hmem ev hev hm msg hw
    exact (monitor_warns_mono f w pages 0 [] c ws hok).2 evs hmem _
      (processPage_write_warning f w evs ev hev hm msg hw)

/-- Witness for C4: a failing second page aborts a concrete run with
the wrapped cause, and a failing sink write surfaces as a warning in a
successful run. -/
theorem monitorKMSEvents_contract_witness :
    MonitorKMSEvents ⟨"", "", "", "", false, false⟩ (fun _ => .ok ())
      [.ok [⟨some "Decrypt", 0, none, none, none, none⟩], .error "boom"] 0 [] =
      .error "error looking up events: boom" ∧
    ("Warning: Failed to write to log file: disk full") ∈
      ["Warning: Failed to write to log file: disk full"] := by
  constructor
  · exact ((monitorKMSEvents_contract ⟨"", "", "", "", false, false⟩ (fun _ => .ok ())
      [.ok [⟨some "Decrypt", 0, none, none, none, none⟩], .error "boom"]).1 _).mpr
      ⟨"boom", rfl, rfl⟩
  · exact (monitorKMSEvents_contract ⟨"", "", "", "", false, false⟩
      (fun _ => .error "disk full") [.ok [⟨some "Decrypt", 0, none, none, none, none⟩]]).2.2
      1 ["Warning: Failed to write to log file: disk full"] rfl
      [⟨some "Decrypt", 0, none, none, none, none⟩] (by simp)
      ⟨some "Decrypt", 0, none, none, none, none⟩ (by simp) rfl "disk full" rfl

theorem logFileName_inj (w : LogWriter) (d1 d2 : String)
    (h : logFileName w d1 = logFileName w d2) : d1 = d2 := by
  unfold logFileName filepathJoin3 at h
  have hd : (w.outputDir ++ "/" ++ w.serviceTag ++ "/"
      ++ (w.serviceTag ++ "-events-" ++ d1 ++ ".log")).data
      = (w.outputDir ++ "/" ++ w.serviceTag ++ "/"
      ++ (w.serviceTag ++ "-events-" ++ d2 ++ ".log")).data := by rw [h]
  simp only [String.data_append] at hd
  exact String.ext (List.append_cancel_left (List.append_cancel_right
    (List.append_cancel_left hd)))

/-- C8: each write resolves its destination to the configured file when
one is set, else to `<outputDir>/<serviceTag>/<serviceTag>-events-<date>.log`
for the date at the moment of the write; `GetCurrentFile` returns
exactly the path the next write will use; for an unconfigured sink the
destination changes exactly when the formatted date changes. -/
theorem writeEvent_destination (w : LogWriter) (today d1 d2 : String) (ev : Event)
    (det : Option (List (String × Json))) :
    (WriteEvent w today ev det).1 = GetCurrentFile w today ∧
    (w.customFile ≠ "" → (WriteEvent w today ev det).1 = w.customFile) ∧
    (w.customFile = "" →
      (WriteEvent w today ev det).1 =
        w.outputDir ++ "/" ++ w.serviceTag ++ "/"
          ++ (w.serviceTag ++ "-events-" ++ today ++ ".log")) ∧
    (w.customFile = "" →
      ((WriteEvent w d1 ev det).1 = (WriteEvent w d2 ev det).1 ↔ d1 = d2)) := by
  refine ⟨rfl, ?_, ?_, ?_⟩
  · intro h
    unfold WriteEvent
    dsimp only
    rw [if_pos h]
  · intro h
    unfold WriteEvent
    dsimp only
    rw [if_neg (by simp [h])]
    rfl
  · intro h
    constructor
    · intro heq
      unfold WriteEvent at heq
      dsimp only at heq
      rw [if_neg (by simp [h]), if_neg (by simp [h])] at heq
      exact logFileName_inj w d1 d2 heq
    · intro heq
      rw [heq]

/-- Witness for C8: concrete daily and custom destinations, and a
day change producing a different file. -/
theorem writeEvent_destination_witness :
    (WriteEvent ⟨"/logs", "kms", "", "text"⟩ "2024-11-20"
        ⟨some "Decrypt", 0, none, none, none, none⟩ none).1 =
      "/logs" ++ "/" ++ "kms" ++ "/" ++ ("kms" ++ "-events-" ++ "2024-11-20" ++ ".log") ∧
    (WriteEvent ⟨"/logs", "kms", "/tmp/custom.log", "json"⟩ "2024-11-20"
        ⟨some "Decrypt", 0, none, none, none, none⟩ none).1 = "/tmp/custom.log" ∧
    (WriteEvent ⟨"/logs", "kms", "", "text"⟩ "2024-11-20"
        ⟨some "Decrypt", 0, none, none, none, none⟩ none).1 ≠
      (WriteEvent ⟨"/logs", "kms", "", "text"⟩ "2024-11-21"
        ⟨some "Decrypt", 0, none, none, none, none⟩ none).1 := by
  refine ⟨?_, ?_, ?_⟩
  · exact (writeEvent_destination ⟨"/logs", "kms", "", "text"⟩ "2024-11-20" "2024-11-20"
      "2024-11-20" ⟨some "Decrypt", 0, none, none, none, none⟩ none).2.2.1 rfl
  · exact (writeEvent_destination ⟨"/logs", "kms", "/tmp/custom.log", "json"⟩ "2024-11-20"
      "2024-11-20" "2024-11-20" ⟨some "Decrypt", 0, none, none, none, none⟩ none).2.1
      (by decide)
  · intro hh
    have := ((writeEvent_destination ⟨"/logs", "kms", "", "text"⟩ "2024-11-20" "2024-11-20"
      "2024-11-21" ⟨some "Decrypt", 0, none, none, none, none⟩ none).2.2.2 rfl).mp hh
    exact absurd this (by decide)


/-! ## The JSON render/parse round trip -/

theorem digit_ne (c x : Char) (h : c.isDigit = true) (hx : x.isDigit = false) :
    (c == x) = false := by
  by_cases hcx : (c == x) = true
  · rw [eq_of_beq hcx] at h
    rw [h] at hx
    exact absurd hx (by simp)
  · simpa using hcx

theorem digit_not_ws (c : Char) (h : c.isDigit = true) : isWs c = false := by
  unfold isWs
  rw [digit_ne c ' ' h (by decide), digit_ne c '\n' h (by decide),
    digit_ne c '\t' h (by decide), digit_ne c '\r' h (by decide)]
  rfl

theorem parseItems_step (f : Nat) (s : List Char) :
    parseGo (f + 1) 1 s =
      (match parseGo f 0 s with
       | none => none
       | some (v, rest) =>
         match skipWs rest with
         | [] => none
         | c :: rest2 =>
           if c == ',' then
             match parseGo f 1 rest2 with
             | some (Json.arr vs, rest3) => some (Json.arr (v :: vs), rest3)
             | _ => none
           else if c == ']' then some (Json.arr [v], rest2)
           else none) := rfl

theorem parseMembers_step (f : Nat) (s : List Char) :
    parseGo (f + 1) 2 s =
      (match skipWs s with
       | [] => none
       | c :: cs =>
         if c == '"' then
           match parseStringBody cs with
           | none => none
           | some (key, rest) =>
             match skipWs rest with
             | [] => none
             | c2 :: rest2 =>
               if c2 == ':' then
                 match parseGo f 0 rest2 with
                 | none => none
                 | some (v, rest3) =>
                   match skipWs rest3 with
                   | [] => none
                   | c3 :: rest4 =>
                     if c3 == ',' then
                       match parseGo f 2 rest4 with
                       | some (Json.obj kvs, rest5) => some (Json.obj ((⟨key⟩, v) :: kvs), rest5)
                       | _ => none
                     else if c3 == rbrace then some (Json.obj [(⟨key⟩, v)], rest4)
                     else none
               else none
         else none) := rfl

theorem parseV_literal_null (f : Nat) (s rest : List Char)
    (h : skipWs s = 'n' :: 'u' :: 'l' :: 'l' :: rest) :
    parseGo (f + 1) 0 s = some (Json.null, rest) := by
  conv_lhs => unfold parseGo
  rw [if_neg (by decide), if_neg (by decide), h]
  dsimp only
  rw [if_neg (by decide), if_neg (by decide), if_neg (by decide), if_neg (by decide),
    if_neg (by decide), if_pos (by decide)]
  rfl

theorem parseV_literal_true (f : Nat) (s rest : List Char)
    (h : skipWs s = 't' :: 'r' :: 'u' :: 'e' :: rest) :
    parseGo (f + 1) 0 s = some (Json.bool true, rest) := by
  conv_lhs => unfold parseGo
  rw [if_neg (by decide), if_neg (by decide), h]
  dsimp only
  rw [if_neg (by decide), if_neg (by decide), if_neg (by decide), if_pos (by decide)]
  rfl

theorem parseV_literal_false (f : Nat) (s rest : List Char)
    (h : skipWs s = 'f' :: 'a' :: 'l' :: 's' :: 'e' :: rest) :
    parseGo (f + 1) 0 s = some (Json.bool false, rest) := by
  conv_lhs => unfold parseGo
  rw [if_neg (by decide), if_neg (by decide), h]
  dsimp only
  rw [if_neg (by decide), if_neg (by decide), if_neg (by decide), if_neg (by decide),
    if_pos (by decide)]
  rfl



theorem parseV_quote (f : Nat) (s cs bd rest : List Char)
    (h : skipWs s = '"' :: cs) (hp : parseStringBody cs = some (bd, rest)) :
    parseGo (f + 1) 0 s = some (Json.str ⟨bd⟩, rest) := by
  conv_lhs => unfold parseGo
  rw [if_neg (by decide), if_neg (by decide), h]
  dsimp only
  rw [if_neg (by decide), if_neg (by decide), if_pos (by decide), hp]

theorem parseV_openBracket (f : Nat) (s cs : List Char) (c2 : Char) (cs2 : List Char)
    (h : skipWs s = '[' :: cs) (h2 : skipWs cs = c2 :: cs2) (hne : (c2 == ']') = false) :
    parseGo (f + 1) 0 s = parseGo f 1 cs := by
  conv_lhs => unfold parseGo
  rw [if_neg (by decide), if_neg (by decide), h]
  dsimp only
  rw [if_neg (by decide), if_pos (by decide), h2]
  dsimp only
  rw [if_neg (by simp [hne])]

theorem parseV_openBrace (f : Nat) (s cs : List Char) (c2 : Char) (cs2 : List Char)
    (h : skipWs s = lbrace :: cs) (h2 : skipWs cs = c2 :: cs2) (hne : (c2 == rbrace) = false) :
    parseGo (f + 1) 0 s = parseGo f 2 cs := by
  conv_lhs => unfold parseGo
  rw [if_neg (by decide), if_neg (by decide), h]
  dsimp only
  rw [if_pos (by decide), h2]
  dsimp only
  rw [if_neg (by simp [hne])]

theorem parseV_digit (f : Nat) (s : List Char) (c : Char) (cs ds rest : List Char)
    (h : skipWs s = c :: cs) (hd : c.isDigit = true)
    (hr : readDigits (c :: cs) = (ds, rest)) (hne : ds ≠ []) :
    parseGo (f + 1) 0 s = some (Json.num (natOfDigits ds), rest) := by
  conv_lhs => unfold parseGo
  rw [if_neg (by decide), if_neg (by decide), h]
  dsimp only
  rw [if_neg (by simp [digit_ne c lbrace hd (by decide)]),
    if_neg (by simp [digit_ne c '[' hd (by decide)]),
    if_neg (by simp [digit_ne c '"' hd (by decide)]),
    if_neg (by simp [digit_ne c 't' hd (by decide)]),
    if_neg (by simp [digit_ne c 'f' hd (by decide)]),
    if_neg (by simp [digit_ne c 'n' hd (by decide)]),
    if_neg (by simp [digit_ne c '-' hd (by decide)]),
    if_pos hd, hr]
  cases ds with
  | nil => exact absurd rfl hne
  | cons d dtl => rfl

theorem parseV_minus (f : Nat) (s cs ds rest : List Char)
    (h : skipWs s = '-' :: cs)
    (hr : readDigits cs = (ds, rest)) (hne : ds ≠ []) :
    parseGo (f + 1) 0 s = some (Json.num (-(natOfDigits ds : Int)), rest) := by
  conv_lhs => unfold parseGo
  rw [if_neg (by decide), if_neg (by decide), h]
  dsimp only
  rw [if_neg (by decide), if_neg (by decide), if_neg (by decide), if_neg (by decide),
    if_neg (by decide), if_neg (by decide), if_pos (by decide), hr]
  cases ds with
  | nil => exact absurd rfl hne
  | cons d dtl => rfl

theorem renderV_head (i : Nat) (j : Json) :
    ∃ c cs2, renderV i j = c :: cs2 ∧ isWs c = false ∧ (c == ']') = false := by
  cases j with
  | null => exact ⟨'n', _, rfl, by decide, by decide⟩
  | bool b =>
    cases b with
    | true => exact ⟨'t', _, rfl, by decide, by decide⟩
    | false => exact ⟨'f', _, rfl, by decide, by decide⟩
  | num n =>
    show ∃ c cs2, renderInt n = c :: cs2 ∧ _
    unfold renderInt
    by_cases hn : n < 0
    · rw [if_pos hn]
      exact ⟨'-', _, rfl, by decide, by decide⟩
    · rw [if_neg hn]
      obtain ⟨hne, hdig, _⟩ := renderNat_spec n.natAbs
      cases hrn : renderNat n.natAbs with
      | nil => exact absurd hrn hne
      | cons c cs =>
        have hc : c.isDigit = true := hdig c (by rw [hrn]; simp)
        exact ⟨c, cs, rfl, digit_not_ws c hc, digit_ne c ']' hc (by decide)⟩
  | str s => exact ⟨'"', _, rfl, by decide, by decide⟩
  | arr xs =>
    cases xs with
    | nil => exact ⟨'[', _, rfl, by decide, by decide⟩
    | cons x tl => exact ⟨'[', _, rfl, by decide, by decide⟩
  | obj kvs =>
    cases kvs with
    | nil => exact ⟨lbrace, _, rfl, by decide, by decide⟩
    | cons kv tl => exact ⟨lbrace, _, rfl, by decide, by decide⟩

theorem parseV_emptyArr (f : Nat) (s cs k : List Char)
    (h : skipWs s = '[' :: cs) (h2 : skipWs cs = ']' :: k) :
    parseGo (f + 1) 0 s = some (Json.arr [], k) := by
  conv_lhs => unfold parseGo
  rw [if_neg (by decide), if_neg (by decide), h]
  dsimp only
  rw [if_neg (by decide), if_pos (by decide), h2]
  dsimp only
  rw [if_pos (by decide)]

theorem parseV_emptyObj (f : Nat) (s cs k : List Char)
    (h : skipWs s = lbrace :: cs) (h2 : skipWs cs = rbrace :: k) :
    parseGo (f + 1) 0 s = some (Json.obj [], k) := by
  conv_lhs => unfold parseGo
  rw [if_neg (by decide), if_neg (by decide), h]
  dsimp only
  rw [if_pos (by decide), h2]
  dsimp only
  rw [if_pos (by decide)]

theorem parse_renderInt (f : Nat) (n : Int) (ws k : List Char)
    (hws : ws.all isWs = true) (hk : ∀ c cs, k = c :: cs → c.isDigit = false) :
    parseGo (f + 1) 0 (ws ++ (renderInt n ++ k)) = some (Json.num n, k) := by
  unfold renderInt
  by_cases hn : n < 0
  · rw [if_pos hn]
    have hds := renderNat_spec n.natAbs
    have hr : readDigits (renderNat n.natAbs ++ k) = (renderNat n.natAbs, k) :=
      readDigits_digits_append _ _ hds.2.1 hk
    have hskip : skipWs (ws ++ (('-' :: renderNat n.natAbs) ++ k))
        = '-' :: (renderNat n.natAbs ++ k) := by
      rw [skipWs_ws_append _ _ hws]
      rw [show ('-' :: renderNat n.natAbs) ++ k = '-' :: (renderNat n.natAbs ++ k) from rfl]
      exact skipWs_not_ws '-' _ (by decide)
    rw [parseV_minus f _ (renderNat n.natAbs ++ k) (renderNat n.natAbs) k hskip hr hds.1]
    rw [hds.2.2]
    have hh : (-(n.natAbs : Int)) = n := by omega
    rw [hh]
  · rw [if_neg hn]
    have hds := renderNat_spec n.natAbs
    cases hrn : renderNat n.natAbs with
    | nil => exact absurd hrn hds.1
    | cons c cs =>
      have hcd : c.isDigit = true := hds.2.1 c (by rw [hrn]; simp)
      have hskip : skipWs (ws ++ ((c :: cs) ++ k)) = c :: (cs ++ k) := by
        rw [skipWs_ws_append _ _ hws]
        rw [show (c :: cs) ++ k = c :: (cs ++ k) from rfl]
        exact skipWs_not_ws c _ (digit_not_ws c hcd)
      have hr : readDigits (c :: (cs ++ k)) = (c :: cs, k) := by
        rw [show c :: (cs ++ k) = (c :: cs) ++ k from rfl]
        apply readDigits_digits_append
        · intro d hd
          apply hds.2.1
          rw [hrn]
          exact hd
        · exact hk
      have hstep := parseV_digit f (ws ++ ((c :: cs) ++ k)) c (cs ++ k) (c :: cs) k
        hskip hcd hr (by simp)
      have hval : natOfDigits (c :: cs) = n.natAbs := by rw [← hrn]; exact hds.2.2
      have hcast : ((n.natAbs : Nat) : Int) = n := by omega
      rw [hval, hcast] at hstep
      exact hstep

theorem renderL_cons_shape (i : Nat) (x : Json) (tl : List Json) :
    ∃ t, renderL i (x :: tl) = indentChars i ++ (renderV i x ++ t) := by
  cases tl with
  | nil =>
    refine ⟨[], ?_⟩
    rw [show renderL i [x] = indentChars i ++ renderV i x from rfl]
    simp
  | cons y tl2 =>
    refine ⟨',' :: '\n' :: renderL i (y :: tl2), ?_⟩
    rw [show renderL i (x :: y :: tl2)
        = indentChars i ++ renderV i x ++ ',' :: '\n' :: renderL i (y :: tl2) from rfl]
    simp

theorem renderM_cons_shape (i : Nat) (kv : String × Json) (tl : List (String × Json)) :
    ∃ t, renderM i (kv :: tl) = indentChars i ++ ('"' :: t) := by
  obtain ⟨k0, v⟩ := kv
  cases tl with
  | nil =>
    refine ⟨escapeChars k0.data ++ ('"' :: (':' :: (' ' :: renderV i v))), ?_⟩
    rw [show renderM i [(k0, v)]
        = indentChars i ++ renderString k0 ++ ':' :: ' ' :: renderV i v from rfl]
    simp [renderString]
  | cons m tl2 =>
    refine ⟨escapeChars k0.data
      ++ ('"' :: (':' :: (' ' :: (renderV i v
        ++ (',' :: ('\n' :: renderM i (m :: tl2))))))), ?_⟩
    rw [show renderM i ((k0, v) :: m :: tl2)
        = indentChars i ++ renderString k0 ++ ':' :: ' ' :: renderV i v
          ++ ',' :: '\n' :: renderM i (m :: tl2) from rfl]
    simp [renderString]

theorem skipWs_renderL_head (i : Nat) (x : Json) (tl : List Json) (t : List Char) :
    ∃ c cs2, skipWs (renderL i (x :: tl) ++ t) = c :: cs2 ∧ (c == ']') = false := by
  obtain ⟨tt, ht⟩ := renderL_cons_shape i x tl
  obtain ⟨c, cs2, hv, hws, hne⟩ := renderV_head i x
  refine ⟨c, cs2 ++ (tt ++ t), ?_, hne⟩
  rw [ht, show (indentChars i ++ (renderV i x ++ tt)) ++ t
      = indentChars i ++ (renderV i x ++ (tt ++ t)) from by simp]
  rw [skipWs_ws_append _ _ (indentChars_all_ws i), hv]
  rw [show (c :: cs2) ++ (tt ++ t) = c :: (cs2 ++ (tt ++ t)) from rfl]
  exact skipWs_not_ws c _ hws

theorem skipWs_renderM_head (i : Nat) (kv : String × Json) (tl : List (String × Json))
    (t : List Char) :
    ∃ cs2, skipWs (renderM i (kv :: tl) ++ t) = '"' :: cs2 := by
  obtain ⟨tt, ht⟩ := renderM_cons_shape i kv tl
  refine ⟨tt ++ t, ?_⟩
  rw [ht, show (indentChars i ++ ('"' :: tt)) ++ t
      = indentChars i ++ ('"' :: (tt ++ t)) from by simp]
  rw [skipWs_ws_append _ _ (indentChars_all_ws i)]
  exact skipWs_not_ws '"' _ (by decide)

mutual

theorem parse_renderVal (i : Nat) (j : Json) :
    ∀ (ws k : List Char) (fp : Nat), ws.all isWs = true →
      (∀ c cs, k = c :: cs → c.isDigit = false) →
      ws.length + (renderV i j).length < fp →
      parseGo fp 0 (ws ++ (renderV i j ++ k)) = some (j, k) := by
  intro ws k fp hws hk hfp
  cases fp with
  | zero => omega
  | succ f =>
    cases j with
    | null =>
      have hskip : skipWs (ws ++ (renderV i Json.null ++ k))
          = 'n' :: 'u' :: 'l' :: 'l' :: k := by
        rw [skipWs_ws_append _ _ hws]
        rw [show renderV i Json.null ++ k = 'n' :: ('u' :: 'l' :: 'l' :: k) from rfl]
        exact skipWs_not_ws 'n' _ (by decide)
      exact parseV_literal_null f _ k hskip
    | bool b =>
      cases b with
      | true =>
        have hskip : skipWs (ws ++ (renderV i (Json.bool true) ++ k))
            = 't' :: 'r' :: 'u' :: 'e' :: k := by
          rw [skipWs_ws_append _ _ hws]
          rw [show renderV i (Json.bool true) ++ k = 't' :: ('r' :: 'u' :: 'e' :: k) from rfl]
          exact skipWs_not_ws 't' _ (by decide)
        exact parseV_literal_true f _ k hskip
      | false =>
        have hskip : skipWs (ws ++ (renderV i (Json.bool false) ++ k))
            = 'f' :: 'a' :: 'l' :: 's' :: 'e' :: k := by
          rw [skipWs_ws_append _ _ hws]
          rw [show renderV i (Json.bool false) ++ k
              = 'f' :: ('a' :: 'l' :: 's' :: 'e' :: k) from rfl]
          exact skipWs_not_ws 'f' _ (by decide)
        exact parseV_literal_false f _ k hskip
    | num n =>
      show parseGo (f + 1) 0 (ws ++ (renderInt n ++ k)) = some (Json.num n, k)
      exact parse_renderInt f n ws k hws hk
    | str s =>
      have hshape : renderV i (Json.str s) ++ k
          = '"' :: (escapeChars s.data ++ '"' :: k) := by
        rw [show renderV i (Json.str s) = renderString s from rfl]
        unfold renderString
        simp
      have hskip : skipWs (ws ++ (renderV i (Json.str s) ++ k))
          = '"' :: (escapeChars s.data ++ '"' :: k) := by
        rw [skipWs_ws_append _ _ hws, hshape]
        exact skipWs_not_ws '"' _ (by decide)
      have hp := parseStringBody_escape k s.data
      rw [parseV_quote f _ _ s.data k hskip hp]
    | arr xs =>
      cases xs with
      | nil =>
        have hskip : skipWs (ws ++ (renderV i (Json.arr []) ++ k)) = '[' :: (']' :: k) := by
          rw [skipWs_ws_append _ _ hws]
          rw [show renderV i (Json.arr []) ++ k = '[' :: (']' :: k) from rfl]
          exact skipWs_not_ws '[' _ (by decide)
        have h2 : skipWs (']' :: k) = ']' :: k := skipWs_not_ws ']' k (by decide)
        exact parseV_emptyArr f _ (']' :: k) k hskip h2
      | cons x tl =>
        have hdef : renderV i (Json.arr (x :: tl))
            = '[' :: '\n' :: renderL (i + 1) (x :: tl) ++ '\n' :: indentChars i ++ [']'] := rfl
        have hshape : renderV i (Json.arr (x :: tl)) ++ k
            = '[' :: ('\n' :: (renderL (i + 1) (x :: tl)
                ++ '\n' :: (indentChars i ++ (']' :: k)))) := by
          rw [hdef]
          simp
        have hskip : skipWs (ws ++ (renderV i (Json.arr (x :: tl)) ++ k))
            = '[' :: ('\n' :: (renderL (i + 1) (x :: tl)
                ++ '\n' :: (indentChars i ++ (']' :: k)))) := by
          rw [skipWs_ws_append _ _ hws, hshape]
          exact skipWs_not_ws '[' _ (by decide)
        obtain ⟨c2, cs2, h2, hne2⟩ :=
          skipWs_renderL_head (i + 1) x tl ('\n' :: (indentChars i ++ (']' :: k)))
        have h2x : skipWs ('\n' :: (renderL (i + 1) (x :: tl)
            ++ '\n' :: (indentChars i ++ (']' :: k)))) = c2 :: cs2 := by
          rw [skipWs_cons, if_pos (by decide)]
          exact h2
        rw [parseV_openBracket f _ _ c2 cs2 hskip h2x hne2]
        have hlen : (renderV i (Json.arr (x :: tl))).length
            = (renderL (i + 1) (x :: tl)).length + (indentChars i).length + 4 := by
          rw [hdef]
          simp only [List.length_cons, List.length_append, List.length_nil]
          omega
        exact parse_renderItems (i + 1) (x :: tl) (by simp) ['\n'] (indentChars i) k f
          (by decide) (indentChars_all_ws i)
          (by simp only [List.length_cons, List.length_nil]; omega)
    | obj kvs =>
      cases kvs with
      | nil =>
        have hskip : skipWs (ws ++ (renderV i (Json.obj []) ++ k))
            = lbrace :: (rbrace :: k) := by
          rw [skipWs_ws_append _ _ hws]
          rw [show renderV i (Json.obj []) ++ k = lbrace :: (rbrace :: k) from rfl]
          exact skipWs_not_ws lbrace _ (by decide)
        have h2 : skipWs (rbrace :: k) = rbrace :: k := skipWs_not_ws rbrace k (by decide)
        exact parseV_emptyObj f _ (rbrace :: k) k hskip h2
      | cons kv tl =>
        have hdef : renderV i (Json.obj (kv :: tl))
            = lbrace :: '\n' :: renderM (i + 1) (kv :: tl)
                ++ '\n' :: indentChars i ++ [rbrace] := rfl
        have hshape : renderV i (Json.obj (kv :: tl)) ++ k
            = lbrace :: ('\n' :: (renderM (i + 1) (kv :: tl)
                ++ '\n' :: (indentChars i ++ (rbrace :: k)))) := by
          rw [hdef]
          simp
        have hskip : skipWs (ws ++ (renderV i (Json.obj (kv :: tl)) ++ k))
            = lbrace :: ('\n' :: (renderM (i + 1) (kv :: tl)
                ++ '\n' :: (indentChars i ++ (rbrace :: k)))) := by
          rw [skipWs_ws_append _ _ hws, hshape]
          exact skipWs_not_ws lbrace _ (by decide)
        obtain ⟨cs2, h2⟩ :=
          skipWs_renderM_head (i + 1) kv tl ('\n' :: (indentChars i ++ (rbrace :: k)))
        have h2x : skipWs ('\n' :: (renderM (i + 1) (kv :: tl)
            ++ '\n' :: (indentChars i ++ (rbrace :: k)))) = '"' :: cs2 := by
          rw [skipWs_cons, if_pos (by decide)]
          exact h2
        rw [parseV_openBrace f _ _ '"' cs2 hskip h2x (by decide)]
        have hlen : (renderV i (Json.obj (kv :: tl))).length
            = (renderM (i + 1) (kv :: tl)).length + (indentChars i).length + 4 := by
          rw [hdef]
          simp only [List.length_cons, List.length_append, List.length_nil]
          omega
        exact parse_renderMembers (i + 1) (kv :: tl) (by simp) ['\n'] (indentChars i) k f
          (by decide) (indentChars_all_ws i)
          (by simp only [List.length_cons, List.length_nil]; omega)

theorem parse_renderItems (i : Nat) (xs : List Json) (hne : xs ≠ []) :
    ∀ (ws0 ws1 k : List Char) (fp : Nat), ws0.all isWs = true → ws1.all isWs = true →
      ws0.length + (renderL i xs).length + ws1.length + 2 < fp →
      parseGo fp 1 (ws0 ++ (renderL i xs ++ '\n' :: (ws1 ++ ']' :: k))) =
        some (Json.arr xs, k) := by
  intro ws0 ws1 k fp hws0 hws1 hfp
  cases fp with
  | zero => omega
  | succ f =>
    cases xs with
    | nil => exact absurd rfl hne
    | cons x tl =>
      cases tl with
      | nil =>
        have hdefL : renderL i [x] = indentChars i ++ renderV i x := rfl
        have hlenL : (renderL i [x]).length
            = (indentChars i).length + (renderV i x).length := by
          rw [hdefL]
          simp
        have hin : ws0 ++ (renderL i [x] ++ '\n' :: (ws1 ++ ']' :: k))
            = (ws0 ++ indentChars i) ++ (renderV i x ++ '\n' :: (ws1 ++ ']' :: k)) := by
          rw [hdefL]
          simp
        have hval := parse_renderVal i x (ws0 ++ indentChars i) ('\n' :: (ws1 ++ ']' :: k)) f
          (by simp [List.all_append, hws0, indentChars_all_ws])
          (by intro c cs h; injection h with h1 h2; rw [← h1]; decide)
          (by simp only [List.length_append]; omega)
        rw [parseItems_step, hin, hval]
        dsimp only
        have hsk : skipWs ('\n' :: (ws1 ++ ']' :: k)) = ']' :: k := by
          rw [skipWs_cons, if_pos (by decide), skipWs_ws_append _ _ hws1]
          exact skipWs_not_ws ']' k (by decide)
        rw [hsk]
        dsimp only
        rw [if_neg (by decide), if_pos (by decide)]
      | cons y tl2 =>
        have hdefL : renderL i (x :: y :: tl2)
            = indentChars i ++ renderV i x ++ ',' :: '\n' :: renderL i (y :: tl2) := rfl
        have hlenL : (renderL i (x :: y :: tl2)).length
            = (indentChars i).length + (renderV i x).length + 2
              + (renderL i (y :: tl2)).length := by
          rw [hdefL]
          simp only [List.length_cons, List.length_append]
          omega
        have hin : ws0 ++ (renderL i (x :: y :: tl2) ++ '\n' :: (ws1 ++ ']' :: k))
            = (ws0 ++ indentChars i)
              ++ (renderV i x
                ++ ',' :: ('\n' :: (renderL i (y :: tl2) ++ '\n' :: (ws1 ++ ']' :: k)))) := by
          rw [hdefL]
          simp
        have hval := parse_renderVal i x (ws0 ++ indentChars i)
          (',' :: ('\n' :: (renderL i (y :: tl2) ++ '\n' :: (ws1 ++ ']' :: k)))) f
          (by simp [List.all_append, hws0, indentChars_all_ws])
          (by intro c cs h; injection h with h1 h2; rw [← h1]; decide)
          (by simp only [List.length_append]; omega)
        rw [parseItems_step, hin, hval]
        dsimp only
        rw [skipWs_not_ws ',' _ (by decide)]
        dsimp only
        rw [if_pos (by decide)]
        have hrest := parse_renderItems i (y :: tl2) (by simp) ['\n'] ws1 k f
          (by decide) hws1
          (by simp only [List.length_cons, List.length_nil]; omega)
        have hrest2 : parseGo f 1 ('\n' :: (renderL i (y :: tl2) ++ '\n' :: (ws1 ++ ']' :: k)))
            = some (Json.arr (y :: tl2), k) := hrest
        rw [hrest2]

theorem parse_renderMembers (i : Nat) (kvs : List (String × Json)) (hne : kvs ≠ []) :
    ∀ (ws0 ws1 k : List Char) (fp : Nat), ws0.all isWs = true → ws1.all isWs = true →
      ws0.length + (renderM i kvs).length + ws1.length + 2 < fp →
      parseGo fp 2 (ws0 ++ (renderM i kvs ++ '\n' :: (ws1 ++ rbrace :: k))) =
        some (Json.obj kvs, k) := by
  intro ws0 ws1 k fp hws0 hws1 hfp
  cases fp with
  | zero => omega
  | succ f =>
    cases kvs with
    | nil => exact absurd rfl hne
    | cons kv tl =>
      obtain ⟨k0, v⟩ := kv
      cases tl with
      | nil =>
        have hdefM : renderM i [(k0, v)]
            = indentChars i ++ renderString k0 ++ ':' :: ' ' :: renderV i v := rfl
        have hlenM : (renderM i [(k0, v)]).length
            = (indentChars i).length + (renderString k0).length + 2
              + (renderV i v).length := by
          rw [hdefM]
          simp only [List.length_cons, List.length_append]
          omega
        have hsk0 : skipWs (ws0 ++ (renderM i [(k0, v)] ++ '\n' :: (ws1 ++ rbrace :: k)))
            = '"' :: (escapeChars k0.data
              ++ '"' :: (':' :: (' ' :: (renderV i v ++ '\n' :: (ws1 ++ rbrace :: k))))) := by
          rw [skipWs_ws_append _ _ hws0]
          rw [show renderM i [(k0, v)] ++ '\n' :: (ws1 ++ rbrace :: k)
              = indentChars i ++ ('"' :: (escapeChars k0.data
                ++ '"' :: (':' :: (' ' :: (renderV i v
                  ++ '\n' :: (ws1 ++ rbrace :: k)))))) from by
            rw [hdefM]
            simp [renderString]]
          rw [skipWs_ws_append _ _ (indentChars_all_ws i)]
          exact skipWs_not_ws '"' _ (by decide)
        rw [parseMembers_step, hsk0]
        dsimp only
        rw [if_pos (by decide)]
        rw [parseStringBody_escape
          (':' :: (' ' :: (renderV i v ++ '\n' :: (ws1 ++ rbrace :: k)))) k0.data]
        dsimp only
        rw [skipWs_not_ws ':' _ (by decide)]
        dsimp only
        rw [if_pos (by decide)]
        have hval := parse_renderVal i v [' '] ('\n' :: (ws1 ++ rbrace :: k)) f
          (by decide)
          (by intro c cs h; injection h with h1 h2; rw [← h1]; decide)
          (by simp only [List.length_cons, List.length_nil]; omega)
        have hval2 : parseGo f 0 (' ' :: (renderV i v ++ '\n' :: (ws1 ++ rbrace :: k)))
            = some (v, '\n' :: (ws1 ++ rbrace :: k)) := hval
        rw [hval2]
        dsimp only
        have hskT : skipWs ('\n' :: (ws1 ++ rbrace :: k)) = rbrace :: k := by
          rw [skipWs_cons, if_pos (by decide), skipWs_ws_append _ _ hws1]
          exact skipWs_not_ws rbrace k (by decide)
        rw [hskT]
        dsimp only
        rw [if_neg (by decide), if_pos (by decide)]
      | cons m tl2 =>
        have hdefM : renderM i ((k0, v) :: m :: tl2)
            = indentChars i ++ renderString k0 ++ ':' :: ' ' :: renderV i v
              ++ ',' :: '\n' :: renderM i (m :: tl2) := rfl
        have hlenM : (renderM i ((k0, v) :: m :: tl2)).length
            = (indentChars i).length + (renderString k0).length + 2
              + (renderV i v).length + 2 + (renderM i (m :: tl2)).length := by
          rw [hdefM]
          simp only [List.length_cons, List.length_append]
          omega
        have hsk0 : skipWs (ws0
              ++ (renderM i ((k0, v) :: m :: tl2) ++ '\n' :: (ws1 ++ rbrace :: k)))
            = '"' :: (escapeChars k0.data
              ++ '"' :: (':' :: (' ' :: (renderV i v
                ++ ',' :: ('\n' :: (renderM i (m :: tl2)
                  ++ '\n' :: (ws1 ++ rbrace :: k))))))) := by
          rw [skipWs_ws_append _ _ hws0]
          rw [show renderM i ((k0, v) :: m :: tl2) ++ '\n' :: (ws1 ++ rbrace :: k)
              = indentChars i ++ ('"' :: (escapeChars k0.data
                ++ '"' :: (':' :: (' ' :: (renderV i v
                  ++ ',' :: ('\n' :: (renderM i (m :: tl2)
                    ++ '\n' :: (ws1 ++ rbrace :: k)))))))) from by
            rw [hdefM]
            simp [renderString]]
          rw [skipWs_ws_append _ _ (indentChars_all_ws i)]
          exact skipWs_not_ws '"' _ (by decide)
        rw [parseMembers_step, hsk0]
        dsimp only
        rw [if_pos (by decide)]
        rw [parseStringBody_escape
          (':' :: (' ' :: (renderV i v ++ ',' :: ('\n' :: (renderM i (m :: tl2)
            ++ '\n' :: (ws1 ++ rbrace :: k)))))) k0.data]
        dsimp only
        rw [skipWs_not_ws ':' _ (by decide)]
        dsimp only
        rw [if_pos (by decide)]
        have hval := parse_renderVal i v [' ']
          (',' :: ('\n' :: (renderM i (m :: tl2) ++ '\n' :: (ws1 ++ rbrace :: k)))) f
          (by decide)
          (by intro c cs h; injection h with h1 h2; rw [← h1]; decide)
          (by simp only [List.length_cons, List.length_nil]; omega)
        have hval2 : parseGo f 0 (' ' :: (renderV i v
              ++ ',' :: ('\n' :: (renderM i (m :: tl2) ++ '\n' :: (ws1 ++ rbrace :: k)))))
            = some (v, ',' :: ('\n' :: (renderM i (m :: tl2)
              ++ '\n' :: (ws1 ++ rbrace :: k)))) := hval
        rw [hval2]
        dsimp only
        rw [skipWs_not_ws ',' _ (by decide)]
        dsimp only
        rw [if_pos (by decide)]
        have hrest := parse_renderMembers i (m :: tl2) (by simp) ['\n'] ws1 k f
          (by decide) hws1
          (by simp only [List.length_cons, List.length_nil]; omega)
        have hrest2 : parseGo f 2 ('\n' :: (renderM i (m :: tl2)
              ++ '\n' :: (ws1 ++ rbrace :: k)))
            = some (Json.obj (m :: tl2), k) := hrest
        rw [hrest2]

end

theorem parse_render_top (j : Json) (k : List Char) (fp : Nat)
    (hk : ∀ c cs, k = c :: cs → c.isDigit = false)
    (hfp : (renderV 0 j).length < fp) :
    parseGo fp 0 (renderV 0 j ++ k) = some (j, k) :=
  parse_renderVal 0 j [] k fp (by decide) hk
    (by simp only [List.length_nil]; omega)

theorem parseJson_renderJson (j : Json) :
    parseJson (renderJson j ++ "\n") = some j := by
  unfold parseJson
  have hdata : (renderJson j ++ "\n").data = renderV 0 j ++ ['\n'] := rfl
  rw [hdata]
  rw [parse_render_top j ['\n'] (2 * (renderV 0 j ++ ['\n']).length + 2)
    (by intro c cs h; injection h with h1 h2; rw [← h1]; decide)
    (by simp only [List.length_append, List.length_cons, List.length_nil]; omega)]
  dsimp only
  rw [show skipWs ['\n'] = [] from rfl]
  simp

theorem decodeOptStr_optStrJson (s : Option String) :
    decodeOptStr (optStrJson s) = some s := by
  cases s <;> rfl

theorem decodeResource_resourceJson (r : Resource) :
    decodeResource (resourceJson r) = some r := by
  unfold resourceJson decodeResource
  dsimp only
  rw [if_pos (by exact ⟨rfl, rfl⟩)]
  rw [decodeOptStr_optStrJson, decodeOptStr_optStrJson]

theorem decodeResources_resourcesJson (rs : Option (List Resource)) :
    decodeResources (resourcesJson rs) = some rs := by
  cases rs with
  | none => rfl
  | some l =>
    show (((l.map resourceJson).mapM decodeResource).map some : Option _) = some (some l)
    have : (l.map resourceJson).mapM decodeResource = some l := by
      induction l with
      | nil => rfl
      | cons r tl ih =>
        simp only [List.map_cons, List.mapM_cons, decodeResource_resourceJson, ih]
        rfl
    rw [this]
    rfl

/-- C7 (counterexample): the JSON export does not round-trip the user
field.  A nil `Username` and the literal user name `N/A` produce
byte-identical appended records (`SafeString` collapses them), so
re-parsing the written object cannot reproduce the source event's user:
the two source events differ in `Username` but every function of the
written file agrees on them. -/
theorem writeEvent_json_user_collapse_cx :
    (⟨some "a", 0, some "b", none, none, none⟩ : Event).username ≠
      (⟨some "a", 0, some "b", some "N/A", none, none⟩ : Event).username ∧
    WriteEvent ⟨"out", "kms", "", "json"⟩ "2024-11-20"
        ⟨some "a", 0, some "b", none, none, none⟩ none =
      WriteEvent ⟨"out", "kms", "", "json"⟩ "2024-11-20"
        ⟨some "a", 0, some "b", some "N/A", none, none⟩ none :=
  ⟨by simp, rfl⟩

/-- C7 (amended): for a writer in `json` mode, re-parsing the single
pretty-printed object appended for an event recovers exactly the
marshalled document `eventJson ev details`; its `eventName` and `user`
fields hold `SafeString` of the source fields (so nil collapses to
`"N/A"` rather than round-tripping), while the `resources` field
decodes back to exactly the source resources. -/
theorem writeEvent_json_roundtrip (w : LogWriter) (today : String) (ev : Event)
    (details : Option (List (String × Json))) (hmode : w.exportMode = "json") :
    parseJson (WriteEvent w today ev details).2 = some (eventJson ev details) ∧
    jsonField (eventJson ev details) "eventName"
      = some (Json.str (SafeString ev.eventName)) ∧
    jsonField (eventJson ev details) "user"
      = some (Json.str (SafeString ev.username)) ∧
    (jsonField (eventJson ev details) "resources").bind decodeResources
      = some ev.resources := by
  refine ⟨?_, rfl, rfl, ?_⟩
  · have hc : (WriteEvent w today ev details).2
        = renderJson (eventJson ev details) ++ "\n" := by
      unfold WriteEvent
      dsimp only
      rw [if_pos hmode]
    rw [hc, parseJson_renderJson]
  · rw [show jsonField (eventJson ev details) "resources"
        = some (resourcesJson ev.resources) from rfl]
    exact decodeResources_resourcesJson ev.resources

/-- Witness for C7 at a concrete writer and event. -/
theorem writeEvent_json_roundtrip_witness :
    parseJson (WriteEvent ⟨"out", "kms", "", "json"⟩ "2024-11-20"
        ⟨some "a", 0, some "b", some "u", some [⟨some "r", none⟩], none⟩ none).2
      = some (eventJson ⟨some "a", 0, some "b", some "u",
          some [⟨some "r", none⟩], none⟩ none) ∧
    jsonField (eventJson ⟨some "a", 0, some "b", some "u",
        some [⟨some "r", none⟩], none⟩ none) "eventName"
      = some (Json.str "a") ∧
    jsonField (eventJson ⟨some "a", 0, some "b", some "u",
        some [⟨some "r", none⟩], none⟩ none) "user"
      = some (Json.str "u") ∧
    (jsonField (eventJson ⟨some "a", 0, some "b", some "u",
        some [⟨some "r", none⟩], none⟩ none) "resources").bind decodeResources
      = some (some [⟨some "r", none⟩]) :=
  writeEvent_json_roundtrip _ _ _ _ rfl

end CloudtrailLogs
